import Mathlib

/-!
# goHUserRoleRemover: the batch role-removal pipeline

A shallow embedding of `goHUserRoleRemover.go`.

* Go strings are Lean `String`s, Go slices are `List`s, and a Go
  `map[string]string` is an association list with overwrite-on-assign
  (`GoMap`), read with the zero value `""` for an absent key.
* The program talks to libraries that are not part of the repository: the
  Hornbill XMLMC session (`apiLib`), `encoding/json`, `os` and `encoding/csv`.
  The remote call, the JSON decoder, the file system and the CSV lexer are
  parameters (`Libs`, `CsvLib`): the theorems quantify over every behaviour of
  them.  The remote service may be stateful; its state is the abstract world
  `σ` that `Invoke` threads.  The parameter list of the session and the
  field-count check of the CSV reader are modelled explicitly.
* Side effects (log lines, dispatched remote calls, progress bar updates) are
  collected, in program order, as a list of `Event`s.
-/

namespace RoleRemover

/-! ## Data model -/

/-- A Go `map[string]string`: at most one binding per key is ever read. -/
abbrev GoMap := List (String × String)

/-- Map assignment `m[k] = v`: overwrite the binding of `k`, or add one. -/
def GoMap.set : GoMap → String → String → GoMap
  | [], k, v => [(k, v)]
  | (k0, v0) :: m, k, v => if k0 = k then (k, v) :: m else (k0, v0) :: GoMap.set m k v

/-- Map read `m[k]`: the bound value, or the zero value `""`. -/
def GoMap.get : GoMap → String → String
  | [], _ => ""
  | (k0, v0) :: m, k => if k0 = k then v0 else GoMap.get m k

/-- The comma-ok read `_, ok := m[k]`. -/
def GoMap.has : GoMap → String → Bool
  | [], _ => false
  | (k0, _) :: m, k => if k0 = k then true else GoMap.has m k

/-- Go type `stateJSONStruct`. -/
structure stateJSONStruct where
  Code : String
  Service : String
  Operation : String
  Error : String
deriving DecidableEq, Repr

/-- An element of `Params.Group`. -/
structure groupItem where
  ID : String
  Type_ : String
  Name : String
deriving DecidableEq, Repr

/-- An element of `Params.Users`. -/
structure userListItem where
  ID : String
  Name : String
deriving DecidableEq, Repr

/-- The anonymous struct `Params` of `jsonMegaStructResponse`. -/
structure paramsStruct where
  Group : List groupItem
  MaxPages : Int
  Updated : Bool
  Deleted : Bool
  Added : Bool
  ID : String
  Rowdata : List GoMap
  Roles : List String
  Users : List userListItem
deriving DecidableEq, Repr

/-- Go type `jsonMegaStructResponse`. -/
structure jsonMegaStructResponse where
  Params : paramsStruct
  State : stateJSONStruct
deriving DecidableEq, Repr

/-- The zero value of `jsonMegaStructResponse` (`var JSONResp jsonMegaStructResponse`). -/
def jsonMegaStructResponse.zero : jsonMegaStructResponse :=
  { Params := { Group := [], MaxPages := 0, Updated := false, Deleted := false, Added := false,
                ID := "", Rowdata := [], Roles := [], Users := [] },
    State := { Code := "", Service := "", Operation := "", Error := "" } }

/-- The global configuration variables that the pipeline reads. -/
structure Config where
  configDebug : Bool
  configHeader : String
  configDryRun : Bool
deriving DecidableEq, Repr

/-- The parameters set on the XMLMC session since the last `ClearParam`, in
`SetParam` order. -/
abbrev Params := List (String × String)

/-- The observable effects of the program, in program order. -/
inductive Event where
  /-- A call `hornbillHelpers.Logger(level, text, cmdOutput, logFile)`; the
  program uses level 1 for debug, 3 for info and 4 for error lines. -/
  | logger (level : Nat) (text : String) (cmdOutput : Bool)
  /-- A call `espXmlmc.Invoke(service, method)` with the session holding `params`:
  the call is dispatched to the remote service. -/
  | invoke (service method : String) (params : Params)
  /-- A call `pb.StartNew(count)`. -/
  | barStart (count : Nat)
  /-- A call `bar.Add(n)`. -/
  | barAdd (n : Nat)
  /-- A call `bar.FinishPrint(text)`. -/
  | barFinish (text : String)
deriving DecidableEq, Repr

/-- The libraries behind `doInvoke`, over a world state `σ` that stands for
the remote service and the network.

* `Invoke w service method params` is `espXmlmc.Invoke(service, method)` on a
  session holding `params`: the response body, the transport error if any, and
  the world afterwards.
* `Unmarshal body` is `json.Unmarshal([]byte(body), &JSONResp)` on a zero
  `JSONResp`: the struct as the decoder leaves it, and the decode error if any.
* `GetParam params` is `espXmlmc.GetParam()`, the rendering of the parameters. -/
structure Libs (σ : Type) where
  Invoke : σ → String → String → Params → (String × Option String) × σ
  Unmarshal : String → jsonMegaStructResponse × Option String
  GetParam : Params → String

/-- Modelled from the spec: `ClearParam` of the XMLMC session (library `apiLib`,
not part of the repository), which starts a new request: the parameters set so
far are forgotten. -/
def ClearParam (_ : Params) : Params := []

/-- Modelled from the spec: `SetParam` of the XMLMC session (library `apiLib`,
not part of the repository). The request carries "the target user id (and, for
removal, every role name as a repeated parameter)": each call adds one
parameter after those already set. -/
def SetParam (p : Params) (name value : String) : Params := p ++ [(name, value)]

/-! ## The remote call pattern -/

/-- Go `debugLog`. -/
def debugLog (cfg : Config) (logtext : String) (cmdOutput : Bool) : List Event :=
  if cfg.configDebug then [Event.logger 1 logtext cmdOutput] else []

/-- What `doInvoke` returns and does. -/
structure InvokeResult (σ : Type) where
  resp : jsonMegaStructResponse
  ok : Bool
  trace : List Event
  world : σ

/-- Go `doInvoke`. -/
def doInvoke {σ : Type} (cfg : Config) (lib : Libs σ) (w : σ) (params : Params)
    (service method : String) (leavesUnmodified : Bool) : InvokeResult σ :=
  let t0 := debugLog cfg (lib.GetParam params) false
  let JSONResp := jsonMegaStructResponse.zero
  if cfg.configDryRun && !leavesUnmodified then
    { resp := JSONResp, ok := false,
      trace := t0 ++ debugLog cfg ("Dry Run => Skipping " ++ service ++ "::" ++ method) false,
      world := w }
  else
    let r := lib.Invoke w service method params
    let RespBody := r.1.1
    let t1 := t0 ++ [Event.invoke service method params] ++ debugLog cfg RespBody false
    match r.1.2 with
    | some xmlmcErr =>
      { resp := JSONResp, ok := false,
        trace := t1 ++ [Event.logger 4
          ("Unable to get " ++ service ++ "::" ++ method ++ " :- " ++ xmlmcErr) false],
        world := r.2 }
    | none =>
      let d := lib.Unmarshal RespBody
      match d.2 with
      | some err =>
        { resp := d.1, ok := false,
          trace := t1 ++ [Event.logger 4
            ("Unable to read " ++ service ++ "::" ++ method ++ " :- " ++ err) false],
          world := r.2 }
      | none =>
        if d.1.State.Error ≠ "" then
          { resp := d.1, ok := false,
            trace := t1 ++ [Event.logger 4
              ("Unable to get " ++ service ++ "::" ++ method ++ " :- " ++ d.1.State.Error) false],
            world := r.2 }
        else
          { resp := d.1, ok := true, trace := t1, world := r.2 }

/-! ## The batch processor -/

/-- The parameters of the `userGetRoleList` call for one user. -/
def getRoleListParams (current_user_id : String) : Params :=
  SetParam (ClearParam []) "userId" current_user_id

/-- The parameters of the `userRemoveRole` call: the user id, then one `role`
parameter per role (the inner `for _, role := range` loop). -/
def removeRoleParams (current_user_id : String) (roles : List String) : Params :=
  roles.foldl (fun p role => SetParam p "role" role)
    (SetParam (ClearParam []) "userId" current_user_id)

/-- The body of the `for _, record := range Users` loop of `handleRoles`. -/
def handleRecord {σ : Type} (cfg : Config) (lib : Libs σ) (w : σ) (record : GoMap) :
    List Event × σ :=
  let current_user_id := record.get cfg.configHeader
  let g := doInvoke cfg lib w (getRoleListParams current_user_id) "admin" "userGetRoleList" true
  if g.ok && decide (g.resp.Params.Roles.length > 0) then
    let d := doInvoke cfg lib g.world (removeRoleParams current_user_id g.resp.Params.Roles)
      "admin" "userRemoveRole" false
    let t :=
      if !d.ok then [Event.logger 4 ("Failed Role Removal: " ++ current_user_id) false]
      else [Event.logger 3 ("Roles Removed for " ++ current_user_id) false]
    (g.trace ++ d.trace ++ t ++ [Event.barAdd 1], d.world)
  else
    (g.trace ++ [Event.logger 3 ("Skipped Role Removal: " ++ current_user_id ++
        (" (" ++ toString g.resp.Params.Roles.length ++ ")")) false]
      ++ [Event.barAdd 1], g.world)

/-- The `for _, record := range Users` loop of `handleRoles`. -/
def handleLoop {σ : Type} (cfg : Config) (lib : Libs σ) : σ → List GoMap → List Event × σ
  | w, [] => ([], w)
  | w, record :: rest =>
    let r := handleRecord cfg lib w record
    let q := handleLoop cfg lib r.2 rest
    (r.1 ++ q.1, q.2)

/-- Go `handleRoles`. -/
def handleRoles {σ : Type} (cfg : Config) (lib : Libs σ) (w : σ) (Users : List GoMap) :
    List Event × σ :=
  let count := Users.length
  let t0 := [Event.logger 3 (toString count ++ " users to process") false, Event.barStart count]
  let r := handleLoop cfg lib w Users
  (t0 ++ r.1 ++ [Event.barFinish "Users Processed\n"]
    ++ debugLog cfg "Finished Processing Users" false, r.2)

/-! ## The CSV loader -/

/-- One record as the lexer of `encoding/csv` finds it in the byte stream,
before the reader's field-count check: its fields, the lexical or I/O error
met while reading it (if any), and the text of the `ErrFieldCount` parse error
that the reader reports for it (`record on line N: wrong number of fields`)
when its field count is wrong. -/
structure RawRecord where
  fields : List String
  err : Option String
  fieldCountErr : String
deriving DecidableEq, Repr

/-- The libraries behind `getRecordsFromCSV`.

* `Open path` is `os.Open(path)`: the bytes of the file, or the error text.
* `Lex lazyQuotes bytes` is the lexer of a `csv.Reader` (default comma, no
  comment character) over a byte stream: the non-empty records in stream
  order, up to end of input. -/
structure CsvLib where
  Open : String → Except String (List UInt8)
  Lex : Bool → List UInt8 → List RawRecord

/-- The buffer after `bom := make([]byte, 3); file.Read(bom)`: up to three
bytes of the file, the rest of the buffer staying zero. -/
def readBom (content : List UInt8) : List UInt8 :=
  content.take 3 ++ List.replicate (3 - (content.take 3).length) 0

/-- The bytes that the CSV reader sees: the file positioned after the three
bytes read when they are `EF BB BF`, and rewound by `file.Seek(0, 0)`
otherwise. -/
def skipBom (content : List UInt8) : List UInt8 :=
  let bom := readBom content
  if bom.getD 0 0 = 0xEF ∧ bom.getD 1 0 = 0xBB ∧ bom.getD 2 0 = 0xBF then
    content.drop 3
  else
    content

/-- What one `r.Read()` returns. -/
inductive ReadResult where
  | record (fields : List String)
  | error (text : String)
deriving DecidableEq, Repr

/-- Modelled from the spec: the field-count check that ends `Read` of a
`csv.Reader` (package `encoding/csv`, not part of the repository), for a reader
whose `FieldsPerRecord` is `fpr` and that has just lexed `raw`. "Rows with fewer
fields than the header fail with a read error for that row": with a positive
`fpr`, a record that lexed without error and has another number of fields is
returned with the `ErrFieldCount` error; with `fpr = 0`, which is what
`csv.NewReader` leaves, the number of fields of the record becomes the new
`FieldsPerRecord`. Returns the result of `Read` and the new `FieldsPerRecord`. -/
def readRecord (fpr : Int) (raw : RawRecord) : ReadResult × Int :=
  let res : ReadResult :=
    match raw.err with
    | some e => ReadResult.error e
    | none => ReadResult.record raw.fields
  if fpr > 0 then
    if (raw.fields.length : Int) ≠ fpr ∧ raw.err = none then
      (ReadResult.error raw.fieldCountErr, fpr)
    else (res, fpr)
  else if fpr = 0 then (res, (raw.fields.length : Int))
  else (res, fpr)

/-- The inner loop `for i := range header { dict[header[i]] = record[i] }`,
from the current position on; `none` is the index-out-of-range panic of
`record[i]`. -/
def fillDict : List String → List String → GoMap → Option GoMap
  | [], _, dict => some dict
  | _ :: _, [], _ => none
  | h :: hs, v :: vs, dict => fillDict hs vs (dict.set h v)

/-- What `getRecordsFromCSV` returns and logs. -/
structure LoadResult where
  ok : Bool
  rows : List GoMap
  trace : List Event
deriving DecidableEq, Repr

/-- The `for { record, err := r.Read() ... }` loop of `getRecordsFromCSV`, on a
reader whose `FieldsPerRecord` is `fpr` and whose unread records are the list
argument (the empty list is `io.EOF`); `none` is a panic. The variable
`header` is `nil` until a record with at least one field has been assigned to
it: a record without fields, which the lexer of `encoding/csv` never returns,
is the nil slice. -/
def readLoop : Option (List String) → List GoMap → Int → List RawRecord → Option LoadResult
  | _, rows, _, [] => some { ok := true, rows := rows, trace := [] }
  | header, rows, fpr, raw :: rest =>
    match readRecord fpr raw with
    | (ReadResult.error text, _) =>
      some { ok := false, rows := rows,
             trace := [Event.logger 4 ("Error reading CSV data: " ++ text) true] }
    | (ReadResult.record record, fpr1) =>
      match header with
      | none => readLoop (if record = [] then none else some record) rows fpr1 rest
      | some hd =>
        match fillDict hd record [] with
        | none => none
        | some dict => readLoop header (rows ++ [dict]) fpr1 rest

/-- Go `getRecordsFromCSV`; `none` is a panic. -/
def getRecordsFromCSV (csv : CsvLib) (csvFile : String) : Option LoadResult :=
  match csv.Open csvFile with
  | Except.error err =>
    some { ok := false, rows := [],
           trace := [Event.logger 4 ("Error opening CSV file: " ++ err) true] }
  | Except.ok content => readLoop none [] 0 (csv.Lex true (skipBom content))

/-- Lines 108 to 119 of Go `main`: load the CSV file, and process the users
when the load succeeded. `elapsed` is the rendering of `time.Since(startTime)`;
`none` is a panic. -/
def mainRun {σ : Type} (cfg : Config) (csv : CsvLib) (lib : Libs σ) (w : σ)
    (configCSVFile elapsed : String) : Option (List Event × σ) :=
  match getRecordsFromCSV csv configCSVFile with
  | none => none
  | some l =>
    if !l.ok then
      some (l.trace ++ [Event.logger 4 "Issues with loading the CSV file" true], w)
    else
      let h := handleRoles cfg lib w l.rows
      some (l.trace ++ h.1 ++ debugLog cfg ("Time Taken: " ++ elapsed) false
        ++ [Event.logger 3 "---- End of Utility ---- " true], h.2)

/-! ## A lexer for plain CSV text

`plainLex` is what the `encoding/csv` lexer does on inputs made of lines ended
by `\n` with comma-separated fields and no quote or carriage return: empty
lines are skipped, every other line is split at its commas. A Go string is a
byte sequence; a field is rendered with one character per byte. -/

/-- Split a byte sequence at every occurrence of `sep`. -/
def splitBytes (sep : UInt8) : List UInt8 → List (List UInt8)
  | [] => [[]]
  | b :: bs =>
    if b = sep then [] :: splitBytes sep bs
    else
      match splitBytes sep bs with
      | [] => [[b]]
      | l :: ls => (b :: l) :: ls

/-- A Go string as a `String`, one character per byte. -/
def bytesToString (bs : List UInt8) : String :=
  String.mk (bs.map (fun b => Char.ofNat b.toNat))

/-- Modelled from the spec: the lexer of a `csv.Reader` (package `encoding/csv`,
not part of the repository) on "comma-delimited" text without quotes or carriage
returns. Lines end at the byte 10, empty lines are skipped, and a line is split
at every byte 44; records carry their line number in the field-count error. -/
def plainLex (_ : Bool) (bytes : List UInt8) : List RawRecord :=
  (((splitBytes 10 bytes).enumFrom 1).filter (fun l => decide (l.2 ≠ []))).map
    (fun l => { fields := (splitBytes 44 l.2).map bytesToString, err := none,
                fieldCountErr := "record on line " ++ toString l.1 ++ ": wrong number of fields" })

/-- A file system with one readable file, `users.csv`, and the plain lexer. -/
def plainCsv (content : List UInt8) : CsvLib :=
  { Open := fun path => if path = "users.csv" then Except.ok content
                        else Except.error ("open " ++ path ++ ": no such file or directory"),
    Lex := plainLex }

/-! ## Notions used to state the properties -/

/-- The user id that `handleRoles` reads from a record. -/
def userId (cfg : Config) (record : GoMap) : String := record.get cfg.configHeader

/-- The `userGetRoleList` call that `handleRoles` makes for a record, from
world `w`. -/
def getRoles {σ : Type} (cfg : Config) (lib : Libs σ) (w : σ) (record : GoMap) : InvokeResult σ :=
  doInvoke cfg lib w (getRoleListParams (userId cfg record)) "admin" "userGetRoleList" true

/-- The `userRemoveRole` call that `handleRoles` makes for a record once its
role listing, made from world `w`, has answered. -/
def removeRoles {σ : Type} (cfg : Config) (lib : Libs σ) (w : σ) (record : GoMap) :
    InvokeResult σ :=
  doInvoke cfg lib (getRoles cfg lib w record).world
    (removeRoleParams (userId cfg record) (getRoles cfg lib w record).resp.Params.Roles)
    "admin" "userRemoveRole" false

/-- The test `success && len(JSONResp.Params.Roles) > 0` of `handleRoles`, for
a record processed from world `w`. -/
def rolesFound {σ : Type} (cfg : Config) (lib : Libs σ) (w : σ) (record : GoMap) : Bool :=
  (getRoles cfg lib w record).ok &&
    decide ((getRoles cfg lib w record).resp.Params.Roles.length > 0)

/-- The world in which `handleRoles` starts on its record number `k`
(counting from 0). -/
def worldBefore {σ : Type} (cfg : Config) (lib : Libs σ) (w : σ) (Users : List GoMap) (k : Nat) : σ :=
  (handleLoop cfg lib w (Users.take k)).2

/-- The event is the dispatch of a call of the given method. -/
def isCall (m : String) : Event → Bool
  | Event.invoke _ method _ => decide (method = m)
  | _ => false

/-- The event is the dispatch of a call to the remote service. -/
def isInvoke : Event → Bool
  | Event.invoke _ _ _ => true
  | _ => false

/-- The text begins with the given words (Go `strings.HasPrefix`). -/
def beginsWith (text pre : String) : Bool := pre.data.isPrefixOf text.data

/-- The log line `Roles Removed for <userId>`, at info level. -/
def isRemoved : Event → Bool
  | Event.logger level text _ => decide (level = 3) && beginsWith text "Roles Removed for "
  | _ => false

/-- The log line `Skipped Role Removal: <userId> (<roleCount>)`, at info level. -/
def isSkipped : Event → Bool
  | Event.logger level text _ => decide (level = 3) && beginsWith text "Skipped Role Removal: "
  | _ => false

/-- The log line `Failed Role Removal: <userId>`, at error level. -/
def isFailed : Event → Bool
  | Event.logger level text _ => decide (level = 4) && beginsWith text "Failed Role Removal: "
  | _ => false

/-- One of the three per-record outcome lines. -/
def isOutcome (e : Event) : Bool := isRemoved e || isSkipped e || isFailed e

/-- The event is an advance of the progress bar. -/
def isBarAdd : Event → Bool
  | Event.barAdd _ => true
  | _ => false

/-- The total advance of the progress bar over a trace. -/
def barTotal : List Event → Nat
  | [] => 0
  | Event.barAdd n :: t => n + barTotal t
  | _ :: t => barTotal t

/-- The event is the outcome line of the user `uid`. -/
def OutcomeFor (uid : String) (e : Event) : Prop :=
  e = Event.logger 3 ("Roles Removed for " ++ uid) false ∨
  (∃ n : Nat, e = Event.logger 3
    ("Skipped Role Removal: " ++ uid ++ (" (" ++ toString n ++ ")")) false) ∨
  e = Event.logger 4 ("Failed Role Removal: " ++ uid) false

/-- The events that `doInvoke` produces besides the dispatch itself: debug
lines and `Unable to ...` error lines. -/
def Noise (e : Event) : Prop :=
  (∃ t, e = Event.logger 1 t false) ∨ (∃ t, e = Event.logger 4 ("Unable to " ++ t) false)

/-- The events of one loop iteration of `handleRoles` other than noise: the
role listing call, the removal call when roles were found and the run is not a
dry run, the outcome line, the progress bar step. -/
def recordCore {σ : Type} (cfg : Config) (lib : Libs σ) (w : σ) (record : GoMap) : List Event :=
  [Event.invoke "admin" "userGetRoleList" (getRoleListParams (userId cfg record))] ++
  (if rolesFound cfg lib w record = true then
    (if cfg.configDryRun = true then []
     else [Event.invoke "admin" "userRemoveRole"
        (removeRoleParams (userId cfg record) (getRoles cfg lib w record).resp.Params.Roles)]) ++
    [if (removeRoles cfg lib w record).ok = true then
       Event.logger 3 ("Roles Removed for " ++ userId cfg record) false
     else Event.logger 4 ("Failed Role Removal: " ++ userId cfg record) false]
   else
    [Event.logger 3 ("Skipped Role Removal: " ++ userId cfg record ++
      (" (" ++ toString (getRoles cfg lib w record).resp.Params.Roles.length ++ ")")) false]) ++
  [Event.barAdd 1]

/-- The outcome line of one loop iteration. -/
def outcomeLine {σ : Type} (cfg : Config) (lib : Libs σ) (w : σ) (record : GoMap) : Event :=
  if rolesFound cfg lib w record = true then
    if (removeRoles cfg lib w record).ok = true then
      Event.logger 3 ("Roles Removed for " ++ userId cfg record) false
    else Event.logger 4 ("Failed Role Removal: " ++ userId cfg record) false
  else
    Event.logger 3 ("Skipped Role Removal: " ++ userId cfg record ++
      (" (" ++ toString (getRoles cfg lib w record).resp.Params.Roles.length ++ ")")) false

/-- The outcome lines of the loop of `handleRoles`, in order. -/
def loopLines {σ : Type} (cfg : Config) (lib : Libs σ) : σ → List GoMap → List Event
  | _, [] => []
  | w, record :: rest =>
    outcomeLine cfg lib w record :: loopLines cfg lib (handleRecord cfg lib w record).2 rest

/-- The reader accepts the record as a row under a header of `n` columns: no
lexical error, and `n` fields. -/
def Accepted (n : Nat) (raw : RawRecord) : Prop := raw.err = none ∧ raw.fields.length = n

instance (n : Nat) (raw : RawRecord) : Decidable (Accepted n raw) := by
  unfold Accepted; infer_instance

/-- The three bytes of the UTF-8 byte-order-mark. -/
def utf8Bom : List UInt8 := [0xEF, 0xBB, 0xBF]

/-- The libraries with every path opening a file of the given content. -/
def CsvLib.withFile (csv : CsvLib) (content : List UInt8) : CsvLib :=
  { Open := fun _ => Except.ok content, Lex := csv.Lex }

/-! ## A small remote service, for concrete runs

The world is the list of users whose roles have been removed. `alice` holds
one role until it is removed, `carol` cannot be reached, everybody else holds
no role. -/

/-- The body of a role listing with one role. -/
def oneRoleBody : String :=
  "\x7b\"@status\":true,\"params\":\x7b\"role\":[\"Basic User Role\"]\x7d\x7d"

/-- The body of a response without parameters. -/
def emptyBody : String := "\x7b\"@status\":true\x7d"

/-- A small remote service and decoder. -/
def demoLib : Libs (List String) :=
  { Invoke := fun w _ method params =>
      if method = "userGetRoleList" then
        if GoMap.get params "userId" = "carol" then (("", some "connection refused"), w)
        else if GoMap.get params "userId" = "alice" ∧ ¬ "alice" ∈ w then ((oneRoleBody, none), w)
        else ((emptyBody, none), w)
      else ((emptyBody, none), w ++ [GoMap.get params "userId"]),
    Unmarshal := fun body =>
      if body = oneRoleBody then
        ({ jsonMegaStructResponse.zero with
            Params := { jsonMegaStructResponse.zero.Params with Roles := ["Basic User Role"] } },
          none)
      else if body = emptyBody then (jsonMegaStructResponse.zero, none)
      else (jsonMegaStructResponse.zero, some "unexpected end of JSON input"),
    GetParam := fun params =>
      String.join (params.map (fun q => "<" ++ q.1 ++ ">" ++ q.2 ++ "</" ++ q.1 ++ ">")) }

/-- The records of a CSV file with header `userid,name` and the rows
`alice,Alice` and `bob,Bob`. -/
def demoUsers : List GoMap :=
  [[("userid", "alice"), ("name", "Alice")], [("userid", "bob"), ("name", "Bob")]]

/-- The configuration with the default header `userid`. -/
def demoConfig (dryRun : Bool) : Config :=
  { configDebug := true, configHeader := "userid", configDryRun := dryRun }

/-- The bytes of a text of ASCII characters. -/
def asciiBytes (s : String) : List UInt8 := s.data.map (fun c => UInt8.ofNat c.toNat)

/-- A CSV file with header `userid,name` and the rows `alice,Alice` and `bob,Bob`. -/
def demoCsvBytes : List UInt8 := asciiBytes "userid,name\nalice,Alice\nbob,Bob\n"

/-- What the plain lexer finds on line `line`. -/
def plainRow (line : Nat) (fields : List String) : RawRecord :=
  { fields := fields, err := none,
    fieldCountErr := "record on line " ++ toString line ++ ": wrong number of fields" }

/-! ## Lemmas on texts -/

theorem digitChar_ne_of_not_digit (m : Nat) (c : Char) (hc : c.isDigit = false) (h : m < 10) :
    Nat.digitChar m ≠ c := by
  intro e
  subst e
  interval_cases m <;> exact absurd hc (by decide)

theorem toDigitsCore_head (fuel n : Nat) (ds : List Char) (hf : 0 < fuel) :
    ∃ m, m < 10 ∧ ∃ tl, Nat.toDigitsCore 10 fuel n ds = Nat.digitChar m :: tl := by
  induction fuel generalizing n ds with
  | zero => omega
  | succ f ih =>
    simp only [Nat.toDigitsCore]
    by_cases h : n / 10 = 0
    · simp only [h, if_true]
      exact ⟨n % 10, Nat.mod_lt _ (by norm_num), _, rfl⟩
    · simp only [h, if_false]
      rcases Nat.eq_zero_or_pos f with hz | hp
      · subst hz
        simp only [Nat.toDigitsCore]
        exact ⟨n % 10, Nat.mod_lt _ (by norm_num), _, rfl⟩
      · exact ih _ _ hp

/-- The decimal rendering of a number starts with a digit. -/
theorem toString_head (n : Nat) :
    ∃ m, m < 10 ∧ ∃ tl, (toString n).data = Nat.digitChar m :: tl := by
  obtain ⟨m, hm, tl, h⟩ := toDigitsCore_head (n + 1) n [] (by omega)
  refine ⟨m, hm, tl, ?_⟩
  show (Nat.repr n).data = _
  simp [Nat.repr, Nat.toDigits, h, List.asString]

theorem count_line_not_outcome (n : Nat) (t : String) (c : Bool) :
    isOutcome (Event.logger 3 (toString n ++ t) c) = false := by
  obtain ⟨m, hm, tl, h⟩ := toString_head n
  have h1 := digitChar_ne_of_not_digit m 'R' (by decide) hm
  have h2 := digitChar_ne_of_not_digit m 'S' (by decide) hm
  simp [isOutcome, isRemoved, isSkipped, isFailed, beginsWith, String.data_append,
    List.isPrefixOf, h]
  exact ⟨fun e => absurd e.symm h1, fun e => absurd e.symm h2⟩

/-! ## Lemmas on `doInvoke` -/

theorem debugLog_noise (cfg : Config) (t : String) : ∀ e ∈ debugLog cfg t false, Noise e := by
  intro e he
  unfold debugLog at he
  split at he
  · simp at he
    exact Or.inl ⟨t, he⟩
  · simp at he

theorem unable_get (t : String) : "Unable to get " ++ t = "Unable to " ++ ("get " ++ t) := by
  rw [← String.append_assoc]; rfl

theorem unable_read (t : String) : "Unable to read " ++ t = "Unable to " ++ ("read " ++ t) := by
  rw [← String.append_assoc]; rfl

theorem noise_unable_get (t : String) : Noise (Event.logger 4 ("Unable to get " ++ t) false) :=
  Or.inr ⟨"get " ++ t, by rw [unable_get]⟩

theorem noise_unable_read (t : String) : Noise (Event.logger 4 ("Unable to read " ++ t) false) :=
  Or.inr ⟨"read " ++ t, by rw [unable_read]⟩

/-- The shape of the trace of `doInvoke`: the debug line of the parameters,
the dispatch unless the call is gated, then noise. -/
theorem doInvoke_trace_shape {σ : Type} (cfg : Config) (lib : Libs σ) (w : σ) (params : Params)
    (service method : String) (leavesUnmodified : Bool) :
    ∃ pre post, (doInvoke cfg lib w params service method leavesUnmodified).trace =
        pre ++ (if (cfg.configDryRun && !leavesUnmodified) = true then []
                else [Event.invoke service method params]) ++ post ∧
      (∀ e ∈ pre, Noise e) ∧ (∀ e ∈ post, Noise e) := by
  refine ⟨debugLog cfg (lib.GetParam params) false, ?_⟩
  have hpre := debugLog_noise cfg (lib.GetParam params)
  unfold doInvoke
  by_cases hg : (cfg.configDryRun && !leavesUnmodified) = true
  · simp only [hg, if_true]
    exact ⟨debugLog cfg ("Dry Run => Skipping " ++ service ++ "::" ++ method) false, by simp,
      hpre, debugLog_noise cfg _⟩
  · simp only [hg]
    have hbody := debugLog_noise cfg (lib.Invoke w service method params).1.1
    cases h1 : (lib.Invoke w service method params).1.2 with
    | some e =>
      refine ⟨debugLog cfg (lib.Invoke w service method params).1.1 false ++ [Event.logger 4
        ("Unable to get " ++ service ++ "::" ++ method ++ " :- " ++ e) false], by simp, hpre, ?_⟩
      intro x hx
      rcases List.mem_append.1 hx with hx | hx
      · exact hbody x hx
      · simp at hx
        rw [hx]
        simp only [String.append_assoc]
        exact noise_unable_get _
    | none =>
      cases h2 : (lib.Unmarshal (lib.Invoke w service method params).1.1).2 with
      | some e =>
        refine ⟨debugLog cfg (lib.Invoke w service method params).1.1 false ++ [Event.logger 4
          ("Unable to read " ++ service ++ "::" ++ method ++ " :- " ++ e) false], by simp,
          hpre, ?_⟩
        intro x hx
        rcases List.mem_append.1 hx with hx | hx
        · exact hbody x hx
        · simp at hx
          rw [hx]
          simp only [String.append_assoc]
          exact noise_unable_read _
      | none =>
        by_cases h3 : (lib.Unmarshal (lib.Invoke w service method params).1.1).1.State.Error = ""
        · refine ⟨debugLog cfg (lib.Invoke w service method params).1.1 false, ?_, hpre, hbody⟩
          simp [h3]
        · refine ⟨debugLog cfg (lib.Invoke w service method params).1.1 false ++ [Event.logger 4
            ("Unable to get " ++ service ++ "::" ++ method ++ " :- " ++
              (lib.Unmarshal (lib.Invoke w service method params).1.1).1.State.Error) false], ?_,
            hpre, ?_⟩
          · simp only [ne_eq, h3, not_false_eq_true, if_true]
            simp
          · intro x hx
            rcases List.mem_append.1 hx with hx | hx
            · exact hbody x hx
            · simp at hx
              rw [hx]
              simp only [String.append_assoc]
              exact noise_unable_get _

theorem noise_not_call (m : String) (e : Event) (h : Noise e) : isCall m e = false := by
  rcases h with ⟨t, rfl⟩ | ⟨t, rfl⟩ <;> rfl

theorem noise_not_outcome (e : Event) (h : Noise e) : isOutcome e = false := by
  rcases h with ⟨t, rfl⟩ | ⟨t, rfl⟩
  · simp [isOutcome, isRemoved, isSkipped, isFailed]
  · simp [isOutcome, isRemoved, isSkipped, isFailed, beginsWith, String.data_append,
      List.isPrefixOf]

theorem noise_not_barAdd (e : Event) (h : Noise e) : isBarAdd e = false := by
  rcases h with ⟨t, rfl⟩ | ⟨t, rfl⟩ <;> rfl

theorem filter_noise (p : Event → Bool) (l : List Event) (hp : ∀ e, Noise e → p e = false)
    (hl : ∀ e ∈ l, Noise e) : l.filter p = [] := by
  rw [List.filter_eq_nil_iff]
  intro a ha
  simp [hp a (hl a ha)]

/-- Filtering the trace of `doInvoke` by a predicate that rejects noise keeps
at most the dispatch. -/
theorem doInvoke_filter {σ : Type} (p : Event → Bool) (hp : ∀ e, Noise e → p e = false)
    (cfg : Config) (lib : Libs σ) (w : σ) (params : Params)
    (service method : String) (leavesUnmodified : Bool) :
    (doInvoke cfg lib w params service method leavesUnmodified).trace.filter p =
      (if (cfg.configDryRun && !leavesUnmodified) = true then []
       else [Event.invoke service method params]).filter p := by
  obtain ⟨pre, post, h, h1, h2⟩ :=
    doInvoke_trace_shape cfg lib w params service method leavesUnmodified
  rw [h, List.filter_append, List.filter_append, filter_noise p pre hp h1,
    filter_noise p post hp h2]
  simp

/-! ## Lemmas on the loop of `handleRoles` -/

theorem removeRoleParams_eq (uid : String) (roles : List String) :
    removeRoleParams uid roles = ("userId", uid) :: roles.map (fun role => ("role", role)) := by
  have h : ∀ (rs : List String) (p : Params),
      rs.foldl (fun p role => SetParam p "role" role) p
        = p ++ rs.map (fun role => ("role", role)) := by
    intro rs
    induction rs with
    | nil => intro p; simp
    | cons r rs ih => intro p; rw [List.foldl, ih]; simp [SetParam]
  rw [removeRoleParams, h]
  simp [SetParam, ClearParam]

theorem getRoleListParams_eq (uid : String) : getRoleListParams uid = [("userId", uid)] := by
  simp [getRoleListParams, SetParam, ClearParam]

/-- One loop iteration, in terms of its two calls. -/
theorem handleRecord_eq {σ : Type} (cfg : Config) (lib : Libs σ) (w : σ) (record : GoMap) :
    handleRecord cfg lib w record =
      if rolesFound cfg lib w record = true then
        ((getRoles cfg lib w record).trace ++ (removeRoles cfg lib w record).trace ++
          [if (removeRoles cfg lib w record).ok = true then
             Event.logger 3 ("Roles Removed for " ++ userId cfg record) false
           else Event.logger 4 ("Failed Role Removal: " ++ userId cfg record) false] ++
          [Event.barAdd 1], (removeRoles cfg lib w record).world)
      else
        ((getRoles cfg lib w record).trace ++
          [Event.logger 3 ("Skipped Role Removal: " ++ userId cfg record ++
            (" (" ++ toString (getRoles cfg lib w record).resp.Params.Roles.length ++ ")")) false]
          ++ [Event.barAdd 1], (getRoles cfg lib w record).world) := by
  unfold handleRecord rolesFound removeRoles getRoles userId
  simp only []
  split
  · cases h : (doInvoke cfg lib
        (doInvoke cfg lib w (getRoleListParams (GoMap.get record cfg.configHeader)) "admin"
          "userGetRoleList" true).world
        (removeRoleParams (GoMap.get record cfg.configHeader)
          (doInvoke cfg lib w (getRoleListParams (GoMap.get record cfg.configHeader)) "admin"
            "userGetRoleList" true).resp.Params.Roles) "admin" "userRemoveRole" false).ok <;> simp
  · rfl

/-- Filtering one loop iteration by a predicate that rejects noise. -/
theorem handleRecord_filter {σ : Type} (p : Event → Bool) (hp : ∀ e, Noise e → p e = false)
    (cfg : Config) (lib : Libs σ) (w : σ) (record : GoMap) :
    (handleRecord cfg lib w record).1.filter p = (recordCore cfg lib w record).filter p := by
  have hg : (getRoles cfg lib w record).trace.filter p =
      [Event.invoke "admin" "userGetRoleList" (getRoleListParams (userId cfg record))].filter p := by
    unfold getRoles
    rw [doInvoke_filter p hp]
    simp
  have hr : (removeRoles cfg lib w record).trace.filter p =
      (if cfg.configDryRun = true then []
       else [Event.invoke "admin" "userRemoveRole"
        (removeRoleParams (userId cfg record)
          (getRoles cfg lib w record).resp.Params.Roles)]).filter p := by
    unfold removeRoles
    rw [doInvoke_filter p hp]
    simp
  rw [handleRecord_eq, recordCore]
  by_cases h : rolesFound cfg lib w record = true
  · rw [if_pos h, if_pos h]
    simp only [List.filter_append, hg, hr, List.append_assoc]
  · rw [if_neg h, if_neg h]
    simp only [List.filter_append, hg, List.append_assoc]

theorem handleLoop_nil {σ : Type} (cfg : Config) (lib : Libs σ) (w : σ) :
    handleLoop cfg lib w [] = ([], w) := rfl

theorem handleLoop_cons {σ : Type} (cfg : Config) (lib : Libs σ) (w : σ) (record : GoMap)
    (rest : List GoMap) :
    handleLoop cfg lib w (record :: rest) =
      ((handleRecord cfg lib w record).1 ++
        (handleLoop cfg lib (handleRecord cfg lib w record).2 rest).1,
       (handleLoop cfg lib (handleRecord cfg lib w record).2 rest).2) := rfl

/-- The loop over a concatenation runs the second part from the world that the
first part leaves. -/
theorem handleLoop_append {σ : Type} (cfg : Config) (lib : Libs σ) (w : σ)
    (l1 l2 : List GoMap) :
    handleLoop cfg lib w (l1 ++ l2) =
      ((handleLoop cfg lib w l1).1 ++ (handleLoop cfg lib (handleLoop cfg lib w l1).2 l2).1,
       (handleLoop cfg lib (handleLoop cfg lib w l1).2 l2).2) := by
  induction l1 generalizing w with
  | nil => simp [handleLoop_nil]
  | cons r l1 ih => simp [handleLoop_cons, ih]

theorem worldBefore_zero {σ : Type} (cfg : Config) (lib : Libs σ) (w : σ) (Users : List GoMap) :
    worldBefore cfg lib w Users 0 = w := by
  simp [worldBefore, handleLoop_nil]

theorem worldBefore_succ {σ : Type} (cfg : Config) (lib : Libs σ) (w : σ) (record : GoMap)
    (rest : List GoMap) (k : Nat) :
    worldBefore cfg lib w (record :: rest) (k + 1) =
      worldBefore cfg lib (handleRecord cfg lib w record).2 rest k := by
  simp [worldBefore, handleLoop_cons]

/-- The trace of `handleRoles` around its loop. -/
theorem handleRoles_trace {σ : Type} (cfg : Config) (lib : Libs σ) (w : σ) (Users : List GoMap) :
    (handleRoles cfg lib w Users).1 =
      [Event.logger 3 (toString Users.length ++ " users to process") false,
        Event.barStart Users.length] ++ (handleLoop cfg lib w Users).1 ++
      [Event.barFinish "Users Processed\n"] ++ debugLog cfg "Finished Processing Users" false :=
  rfl

/-- Filtering the whole trace by a predicate that rejects noise, the count line
and the progress bar frame leaves the filtered loop. -/
theorem handleRoles_filter {σ : Type} (p : Event → Bool) (hp : ∀ e, Noise e → p e = false)
    (h3 : ∀ (n : Nat) (t : String), p (Event.logger 3 (toString n ++ t) false) = false)
    (hs : ∀ n, p (Event.barStart n) = false) (hf : ∀ t, p (Event.barFinish t) = false)
    (cfg : Config) (lib : Libs σ) (w : σ) (Users : List GoMap) :
    (handleRoles cfg lib w Users).1.filter p = (handleLoop cfg lib w Users).1.filter p := by
  rw [handleRoles_trace]
  simp only [List.filter_append]
  rw [filter_noise p _ hp (debugLog_noise cfg _)]
  simp [List.filter, h3, hs, hf]

/-- The filtered loop is the filtered core events of its iterations. -/
theorem handleLoop_filter_cons {σ : Type} (p : Event → Bool) (hp : ∀ e, Noise e → p e = false)
    (cfg : Config) (lib : Libs σ) (w : σ) (record : GoMap) (rest : List GoMap) :
    (handleLoop cfg lib w (record :: rest)).1.filter p =
      (recordCore cfg lib w record).filter p ++
        (handleLoop cfg lib (handleRecord cfg lib w record).2 rest).1.filter p := by
  rw [handleLoop_cons, List.filter_append, handleRecord_filter p hp]

/-! ## Classification of the outcome lines -/

theorem removed_line (u : String) (c : Bool) :
    isRemoved (Event.logger 3 ("Roles Removed for " ++ u) c) = true ∧
    isSkipped (Event.logger 3 ("Roles Removed for " ++ u) c) = false ∧
    isFailed (Event.logger 3 ("Roles Removed for " ++ u) c) = false := by
  simp [isRemoved, isSkipped, isFailed, beginsWith, String.data_append, List.isPrefixOf]

theorem skipped_line (u t : String) (c : Bool) :
    isRemoved (Event.logger 3 ("Skipped Role Removal: " ++ u ++ t) c) = false ∧
    isSkipped (Event.logger 3 ("Skipped Role Removal: " ++ u ++ t) c) = true ∧
    isFailed (Event.logger 3 ("Skipped Role Removal: " ++ u ++ t) c) = false := by
  simp [isRemoved, isSkipped, isFailed, beginsWith, String.data_append, List.isPrefixOf]

theorem failed_line (u : String) (c : Bool) :
    isRemoved (Event.logger 4 ("Failed Role Removal: " ++ u) c) = false ∧
    isSkipped (Event.logger 4 ("Failed Role Removal: " ++ u) c) = false ∧
    isFailed (Event.logger 4 ("Failed Role Removal: " ++ u) c) = true := by
  simp [isRemoved, isSkipped, isFailed, beginsWith, String.data_append, List.isPrefixOf]

theorem outcomeLine_for {σ : Type} (cfg : Config) (lib : Libs σ) (w : σ) (record : GoMap) :
    OutcomeFor (userId cfg record) (outcomeLine cfg lib w record) := by
  unfold outcomeLine OutcomeFor
  by_cases h : rolesFound cfg lib w record = true
  · by_cases h2 : (removeRoles cfg lib w record).ok = true
    · simp [h, h2]
    · simp [h, h2]
  · rw [if_neg h]
    exact Or.inr (Or.inl ⟨_, rfl⟩)

theorem outcomeFor_kinds (uid : String) (e : Event) (h : OutcomeFor uid e) :
    isOutcome e = true ∧
      (if isRemoved e then 1 else 0) + (if isSkipped e then 1 else 0) +
        (if isFailed e then 1 else 0) = 1 := by
  rcases h with rfl | ⟨n, rfl⟩ | rfl
  · simp [isOutcome, removed_line]
  · simp [isOutcome, skipped_line]
  · simp [isOutcome, failed_line]

/-- The core events of one iteration, filtered by a predicate that keeps
neither calls nor progress bar steps, are its outcome line, filtered. -/
theorem recordCore_filter_lines {σ : Type} (p : Event → Bool)
    (hi : ∀ s m q, p (Event.invoke s m q) = false) (hb : ∀ n, p (Event.barAdd n) = false)
    (cfg : Config) (lib : Libs σ) (w : σ) (record : GoMap) :
    (recordCore cfg lib w record).filter p = [outcomeLine cfg lib w record].filter p := by
  unfold recordCore outcomeLine
  by_cases h : rolesFound cfg lib w record = true
  · by_cases hd : cfg.configDryRun = true
    · simp [h, hd, List.filter, hi, hb]
    · simp [h, hd, List.filter, hi, hb]
  · simp [h, List.filter, hi, hb]

theorem recordCore_filter_calls {σ : Type} (p : Event → Bool)
    (hl : ∀ n t c, p (Event.logger n t c) = false) (hb : ∀ n, p (Event.barAdd n) = false)
    (cfg : Config) (lib : Libs σ) (w : σ) (record : GoMap) :
    (recordCore cfg lib w record).filter p =
      ([Event.invoke "admin" "userGetRoleList" (getRoleListParams (userId cfg record))] ++
        (if rolesFound cfg lib w record = true ∧ cfg.configDryRun = false then
          [Event.invoke "admin" "userRemoveRole" (removeRoleParams (userId cfg record)
            (getRoles cfg lib w record).resp.Params.Roles)]
         else [])).filter p := by
  unfold recordCore
  by_cases h : rolesFound cfg lib w record = true
  · by_cases hd : cfg.configDryRun = true
    · by_cases h2 : (removeRoles cfg lib w record).ok = true <;>
        simp [h, hd, h2, List.filter, hl, hb]
    · by_cases h2 : (removeRoles cfg lib w record).ok = true <;>
        simp [h, hd, h2, List.filter, hl, hb]
  · simp [h, List.filter, hl, hb]

theorem recordCore_filter_barAdd {σ : Type}
    (cfg : Config) (lib : Libs σ) (w : σ) (record : GoMap) :
    (recordCore cfg lib w record).filter isBarAdd = [Event.barAdd 1] := by
  unfold recordCore
  by_cases h : rolesFound cfg lib w record = true
  · by_cases hd : cfg.configDryRun = true
    · by_cases h2 : (removeRoles cfg lib w record).ok = true <;>
        simp [h, hd, h2, List.filter, isBarAdd]
    · by_cases h2 : (removeRoles cfg lib w record).ok = true <;>
        simp [h, hd, h2, List.filter, isBarAdd]
  · simp [h, List.filter, isBarAdd]

theorem barTotal_filter (l : List Event) : barTotal l = barTotal (l.filter isBarAdd) := by
  induction l with
  | nil => rfl
  | cons e l ih => cases e <;> simp [barTotal, List.filter, isBarAdd, ih]

theorem barTotal_replicate (n : Nat) : barTotal (List.replicate n (Event.barAdd 1)) = n := by
  induction n with
  | zero => rfl
  | succ n ih => simp [List.replicate, barTotal, ih]; omega

/-! ## The remote call pattern: `doInvoke` -/

/-- C8. `doInvoke` reports ok exactly when the call is not a dry-run-gated
mutating call, the transport returned no error, the body decoded without error
and the decoded state error is empty; the payload is then the decoded response.
In each of the four other cases it reports not-ok. -/
theorem doInvoke_ok_iff {σ : Type} (cfg : Config) (lib : Libs σ) (w : σ) (params : Params)
    (service method : String) (leavesUnmodified : Bool) :
    ((doInvoke cfg lib w params service method leavesUnmodified).ok = true ↔
      (¬ (cfg.configDryRun = true ∧ leavesUnmodified = false) ∧
        (lib.Invoke w service method params).1.2 = none ∧
        (lib.Unmarshal (lib.Invoke w service method params).1.1).2 = none ∧
        (lib.Unmarshal (lib.Invoke w service method params).1.1).1.State.Error = "")) ∧
    ((doInvoke cfg lib w params service method leavesUnmodified).ok = true →
      (doInvoke cfg lib w params service method leavesUnmodified).resp =
        (lib.Unmarshal (lib.Invoke w service method params).1.1).1) := by
  unfold doInvoke
  by_cases hg : (cfg.configDryRun && !leavesUnmodified) = true
  · simp only [hg, if_true]
    simp at hg
    simp [hg]
  · simp only [hg]
    have hg2 : ¬ (cfg.configDryRun = true ∧ leavesUnmodified = false) := by
      intro hh
      apply hg
      simp [hh.1, hh.2]
    cases h1 : (lib.Invoke w service method params).1.2 with
    | some e => simp
    | none =>
      cases h2 : (lib.Unmarshal (lib.Invoke w service method params).1.1).2 with
      | some e => simp
      | none =>
        by_cases h3 : (lib.Unmarshal (lib.Invoke w service method params).1.1).1.State.Error = ""
        · simp [h3]
          intro a
          cases hl : leavesUnmodified
          · exact absurd ⟨a, hl⟩ hg2
          · rfl
        · simp [h3]

/-- A gated call: nothing is dispatched, the world is as before. -/
theorem doInvoke_gated {σ : Type} (cfg : Config) (lib : Libs σ) (w : σ) (params : Params)
    (service method : String) (hd : cfg.configDryRun = true) :
    (doInvoke cfg lib w params service method false).trace.filter isInvoke = [] ∧
    (doInvoke cfg lib w params service method false).ok = false ∧
    (doInvoke cfg lib w params service method false).world = w ∧
    (doInvoke cfg lib w params service method false).resp = jsonMegaStructResponse.zero := by
  unfold doInvoke
  simp only [hd, Bool.not_false, Bool.and_self, if_true, and_true]
  cases hdbg : cfg.configDebug <;> simp [debugLog, hdbg, List.filter, isInvoke]

theorem noise_not_invoke (e : Event) (h : Noise e) : isInvoke e = false := by
  rcases h with ⟨t, rfl⟩ | ⟨t, rfl⟩ <;> rfl

/-! ## The batch processor: `handleRoles` -/

/-- The calls that the loop dispatches, in order. -/
theorem handleLoop_calls {σ : Type} (cfg : Config) (lib : Libs σ) (w : σ) (Users : List GoMap)
    (hd : cfg.configDryRun = true) :
    (handleLoop cfg lib w Users).1.filter isInvoke =
      Users.map (fun record =>
        Event.invoke "admin" "userGetRoleList" [("userId", record.get cfg.configHeader)]) := by
  induction Users generalizing w with
  | nil => rfl
  | cons r rest ih =>
    rw [handleLoop_filter_cons isInvoke noise_not_invoke, ih,
      recordCore_filter_calls isInvoke (fun _ _ _ => rfl) (fun _ => rfl)]
    simp [hd, List.filter, isInvoke, getRoleListParams_eq, userId]

theorem handleLoop_getRoleList {σ : Type} (cfg : Config) (lib : Libs σ) (w : σ)
    (Users : List GoMap) :
    (handleLoop cfg lib w Users).1.filter (isCall "userGetRoleList") =
      Users.map (fun record =>
        Event.invoke "admin" "userGetRoleList" [("userId", record.get cfg.configHeader)]) := by
  induction Users generalizing w with
  | nil => rfl
  | cons r rest ih =>
    rw [handleLoop_filter_cons (isCall "userGetRoleList") (noise_not_call _), ih,
      recordCore_filter_calls (isCall "userGetRoleList") (fun _ _ _ => rfl) (fun _ => rfl)]
    by_cases h : rolesFound cfg lib w r = true ∧ cfg.configDryRun = false
    · rw [if_pos h]
      simp [List.filter, isCall, getRoleListParams_eq, userId]
    · rw [if_neg h]
      simp [List.filter, isCall, getRoleListParams_eq, userId]

/-- C1. In a dry run the only calls that `handleRoles` dispatches are the role
listings, one per record and in record order: no `userRemoveRole` call is
dispatched, and `doInvoke` on a mutating call returns not-ok before `Invoke`,
leaving the remote service as it was. -/
theorem dryRun_dispatches_only_role_listings {σ : Type} (cfg : Config) (lib : Libs σ) (w : σ)
    (Users : List GoMap) (hd : cfg.configDryRun = true) :
    (handleRoles cfg lib w Users).1.filter isInvoke =
      Users.map (fun record =>
        Event.invoke "admin" "userGetRoleList" [("userId", record.get cfg.configHeader)]) ∧
    (∀ e ∈ (handleRoles cfg lib w Users).1, isCall "userRemoveRole" e = false) ∧
    (∀ (w0 : σ) (params : Params) (service method : String),
      (doInvoke cfg lib w0 params service method false).trace.filter isInvoke = [] ∧
      (doInvoke cfg lib w0 params service method false).ok = false ∧
      (doInvoke cfg lib w0 params service method false).world = w0) := by
  have h1 : (handleRoles cfg lib w Users).1.filter isInvoke =
      Users.map (fun record =>
        Event.invoke "admin" "userGetRoleList" [("userId", record.get cfg.configHeader)]) := by
    rw [handleRoles_filter isInvoke noise_not_invoke (fun _ _ => rfl) (fun _ => rfl)
      (fun _ => rfl), handleLoop_calls cfg lib w Users hd]
  refine ⟨h1, ?_, ?_⟩
  · intro e he
    cases e with
    | invoke s m q =>
      have hm : Event.invoke s m q ∈ (handleRoles cfg lib w Users).1.filter isInvoke :=
        List.mem_filter.2 ⟨he, rfl⟩
      rw [h1] at hm
      obtain ⟨record, _, hr⟩ := List.mem_map.1 hm
      injection hr with _ hm2 _
      subst hm2
      simp [isCall]
    | logger n t c => rfl
    | barStart n => rfl
    | barAdd n => rfl
    | barFinish t => rfl
  · intro w0 params service method
    have := doInvoke_gated cfg lib w0 params service method hd
    exact ⟨this.1, this.2.1, this.2.2.1⟩

/-- C2. Whatever the remote service does, `handleRoles` dispatches
`userGetRoleList` exactly once per record, in record order, with `userId` set to
the record's value under the configured key column; a failure on one record
does not stop the records after it. -/
theorem handleRoles_lists_roles_once_per_record {σ : Type} (cfg : Config) (lib : Libs σ) (w : σ)
    (Users : List GoMap) :
    (handleRoles cfg lib w Users).1.filter (isCall "userGetRoleList") =
      Users.map (fun record =>
        Event.invoke "admin" "userGetRoleList" [("userId", record.get cfg.configHeader)]) := by
  rw [handleRoles_filter (isCall "userGetRoleList") (noise_not_call _) (fun _ _ => rfl)
    (fun _ => rfl) (fun _ => rfl), handleLoop_getRoleList]

theorem rolesFound_iff {σ : Type} (cfg : Config) (lib : Libs σ) (w : σ) (record : GoMap) :
    rolesFound cfg lib w record = true ↔
      (getRoles cfg lib w record).ok = true ∧ (getRoles cfg lib w record).resp.Params.Roles ≠ [] := by
  simp [rolesFound, List.length_pos]

theorem handleLoop_removeRole_mem {σ : Type} (cfg : Config) (lib : Libs σ) (w : σ)
    (Users : List GoMap) (service : String) (params : Params)
    (h : Event.invoke service "userRemoveRole" params ∈ (handleLoop cfg lib w Users).1) :
    ∃ k record, Users[k]? = some record ∧
      rolesFound cfg lib (worldBefore cfg lib w Users k) record = true ∧
      cfg.configDryRun = false ∧ service = "admin" ∧
      params = removeRoleParams (userId cfg record)
        (getRoles cfg lib (worldBefore cfg lib w Users k) record).resp.Params.Roles := by
  induction Users generalizing w with
  | nil => simp [handleLoop_nil] at h
  | cons r rest ih =>
    have hm : Event.invoke service "userRemoveRole" params ∈
        (handleLoop cfg lib w (r :: rest)).1.filter (isCall "userRemoveRole") :=
      List.mem_filter.2 ⟨h, by simp [isCall]⟩
    rw [handleLoop_filter_cons (isCall "userRemoveRole") (noise_not_call _),
      recordCore_filter_calls (isCall "userRemoveRole") (fun _ _ _ => rfl) (fun _ => rfl)] at hm
    rcases List.mem_append.1 hm with h1 | h2
    · by_cases hc : rolesFound cfg lib w r = true ∧ cfg.configDryRun = false
      · rw [if_pos hc] at h1
        simp [List.filter, isCall] at h1
        refine ⟨0, r, by simp, ?_, hc.2, h1.1, ?_⟩
        · rw [worldBefore_zero]; exact hc.1
        · rw [worldBefore_zero]; exact h1.2
      · rw [if_neg hc] at h1
        simp [List.filter, isCall] at h1
    · obtain ⟨k, record, hk, hf, hd, hs, hp⟩ := ih _ (List.mem_filter.1 h2).1
      refine ⟨k + 1, record, by simpa using hk, ?_, hd, hs, ?_⟩
      · rw [worldBefore_succ]; exact hf
      · rw [worldBefore_succ]; exact hp

/-- C3. Every `userRemoveRole` call that `handleRoles` dispatches is the call
for some record whose preceding `userGetRoleList` call succeeded and returned a
non-empty role list, and it carries that user id and those roles; a record whose
role listing failed or came back empty gets no removal call. -/
theorem removeRole_only_after_roles_found {σ : Type} (cfg : Config) (lib : Libs σ) (w : σ)
    (Users : List GoMap) :
    (∀ (service : String) (params : Params),
      Event.invoke service "userRemoveRole" params ∈ (handleRoles cfg lib w Users).1 →
      ∃ k record, Users[k]? = some record ∧
        (getRoles cfg lib (worldBefore cfg lib w Users k) record).ok = true ∧
        (getRoles cfg lib (worldBefore cfg lib w Users k) record).resp.Params.Roles ≠ [] ∧
        service = "admin" ∧
        params = ("userId", record.get cfg.configHeader) ::
          (getRoles cfg lib (worldBefore cfg lib w Users k) record).resp.Params.Roles.map
            (fun role => ("role", role))) ∧
    (∀ (w0 : σ) (record : GoMap),
      ((getRoles cfg lib w0 record).ok = false ∨
        (getRoles cfg lib w0 record).resp.Params.Roles = []) →
      ∀ e ∈ (handleRecord cfg lib w0 record).1, isCall "userRemoveRole" e = false) := by
  constructor
  · intro service params h
    have hm : Event.invoke service "userRemoveRole" params ∈
        (handleRoles cfg lib w Users).1.filter (isCall "userRemoveRole") :=
      List.mem_filter.2 ⟨h, by simp [isCall]⟩
    rw [handleRoles_filter (isCall "userRemoveRole") (noise_not_call _) (fun _ _ => rfl)
      (fun _ => rfl) (fun _ => rfl)] at hm
    obtain ⟨k, record, hk, hf, _, hs, hp⟩ :=
      handleLoop_removeRole_mem cfg lib w Users service params (List.mem_filter.1 hm).1
    rw [rolesFound_iff] at hf
    refine ⟨k, record, hk, hf.1, hf.2, hs, ?_⟩
    rw [hp, removeRoleParams_eq]
    rfl
  · intro w0 record hno
    have hf : ¬ rolesFound cfg lib w0 record = true := by
      rw [rolesFound_iff]
      rintro ⟨h1, h2⟩
      rcases hno with h | h
      · rw [h] at h1; exact Bool.noConfusion h1
      · exact h2 h
    have he : (handleRecord cfg lib w0 record).1.filter (isCall "userRemoveRole") = [] := by
      rw [handleRecord_filter (isCall "userRemoveRole") (noise_not_call _),
        recordCore_filter_calls (isCall "userRemoveRole") (fun _ _ _ => rfl) (fun _ => rfl),
        if_neg (fun hc => hf hc.1)]
      simp [List.filter, isCall]
    intro e hmem
    by_contra hc
    have : e ∈ (handleRecord cfg lib w0 record).1.filter (isCall "userRemoveRole") :=
      List.mem_filter.2 ⟨hmem, by simpa using hc⟩
    rw [he] at this
    exact List.not_mem_nil _ this

/-- The loop, filtered by a predicate that keeps only log lines other than
noise, is its outcome lines, filtered. -/
theorem handleLoop_filter_lines {σ : Type} (p : Event → Bool) (hp : ∀ e, Noise e → p e = false)
    (hi : ∀ s m q, p (Event.invoke s m q) = false) (hb : ∀ n, p (Event.barAdd n) = false)
    (cfg : Config) (lib : Libs σ) (w : σ) (Users : List GoMap) :
    (handleLoop cfg lib w Users).1.filter p = (loopLines cfg lib w Users).filter p := by
  induction Users generalizing w with
  | nil => rfl
  | cons r rest ih =>
    rw [handleLoop_filter_cons p hp, recordCore_filter_lines p hi hb, ih, loopLines,
      ← List.filter_append]
    rfl

theorem loopLines_for {σ : Type} (cfg : Config) (lib : Libs σ) (w : σ) (Users : List GoMap) :
    List.Forall₂ (fun record e => OutcomeFor (record.get cfg.configHeader) e) Users
      (loopLines cfg lib w Users) := by
  induction Users generalizing w with
  | nil => exact List.Forall₂.nil
  | cons r rest ih => exact List.Forall₂.cons (outcomeLine_for cfg lib w r) (ih _)

theorem filter_all_true {α : Type} (p : α → Bool) (l : List α) (h : ∀ a ∈ l, p a = true) :
    l.filter p = l := List.filter_eq_self.2 h

theorem forall₂_outcome_mem {l : List GoMap} {es : List Event} {f : GoMap → String}
    (h : List.Forall₂ (fun record e => OutcomeFor (f record) e) l es) :
    ∀ e ∈ es, ∃ uid, OutcomeFor uid e := by
  induction h with
  | nil => intro e he; cases he
  | cons hh _ ih =>
    intro e he
    rcases List.mem_cons.1 he with rfl | h2
    · exact ⟨_, hh⟩
    · exact ih e h2

theorem forall₂_outcome_counts {l : List GoMap} {es : List Event} {f : GoMap → String}
    (h : List.Forall₂ (fun record e => OutcomeFor (f record) e) l es) :
    es.countP isRemoved + es.countP isSkipped + es.countP isFailed = l.length := by
  induction h with
  | nil => rfl
  | cons hh _ ih =>
    have hk := (outcomeFor_kinds _ _ hh).2
    simp only [List.countP_cons, List.length_cons]
    omega

theorem countP_via_filter (p q : Event → Bool) (l : List Event)
    (hq : ∀ e, p e = true → q e = true) :
    l.countP p = (l.filter q).countP p := by
  rw [List.countP_filter]
  congr 1
  funext e
  cases hpe : p e
  · simp
  · simp [hq e hpe]

theorem handleRoles_outcomes {σ : Type} (cfg : Config) (lib : Libs σ) (w : σ)
    (Users : List GoMap) :
    (handleRoles cfg lib w Users).1.filter isOutcome = loopLines cfg lib w Users := by
  rw [handleRoles_filter isOutcome noise_not_outcome
      (fun n t => count_line_not_outcome n t false) (fun _ => rfl) (fun _ => rfl),
    handleLoop_filter_lines isOutcome noise_not_outcome (fun _ _ _ => rfl) (fun _ => rfl)]
  apply filter_all_true
  intro e he
  obtain ⟨uid, hu⟩ := forall₂_outcome_mem (loopLines_for cfg lib w Users) e he
  exact (outcomeFor_kinds uid e hu).1

theorem handleRoles_barAdd {σ : Type} (cfg : Config) (lib : Libs σ) (w : σ)
    (Users : List GoMap) :
    (handleRoles cfg lib w Users).1.filter isBarAdd =
      List.replicate Users.length (Event.barAdd 1) := by
  rw [handleRoles_filter isBarAdd noise_not_barAdd (fun _ _ => rfl) (fun _ => rfl)
    (fun _ => rfl)]
  induction Users generalizing w with
  | nil => rfl
  | cons r rest ih =>
    rw [handleLoop_filter_cons isBarAdd noise_not_barAdd, recordCore_filter_barAdd, ih]
    rfl

theorem isRemoved_outcome (e : Event) (h : isRemoved e = true) : isOutcome e = true := by
  simp [isOutcome, h]

theorem isSkipped_outcome (e : Event) (h : isSkipped e = true) : isOutcome e = true := by
  simp [isOutcome, h]

theorem isFailed_outcome (e : Event) (h : isFailed e = true) : isOutcome e = true := by
  simp [isOutcome, h]

/-- C10. `handleRoles` logs exactly one outcome line per record, in record
order, each one of removed, skipped and failed for that record's user, and steps
the progress bar by one per record, so that the three counts add up to the
number of records; on the records alice and bob, when alice holds one role and
its removal succeeds and bob holds none, the outcome is 1 removed, 1 skipped,
0 failed. -/
theorem handleRoles_one_outcome_per_record {σ : Type} (cfg : Config) (lib : Libs σ) (w : σ)
    (Users : List GoMap) :
    List.Forall₂ (fun record e => OutcomeFor (record.get cfg.configHeader) e) Users
      ((handleRoles cfg lib w Users).1.filter isOutcome) ∧
    (handleRoles cfg lib w Users).1.filter isBarAdd =
      List.replicate Users.length (Event.barAdd 1) ∧
    barTotal (handleRoles cfg lib w Users).1 = Users.length ∧
    (handleRoles cfg lib w Users).1.countP isRemoved +
      (handleRoles cfg lib w Users).1.countP isSkipped +
      (handleRoles cfg lib w Users).1.countP isFailed = Users.length ∧
    (cfg.configHeader = "userid" →
      (getRoles cfg lib w [("userid", "alice"), ("name", "Alice")]).ok = true →
      (getRoles cfg lib w [("userid", "alice"), ("name", "Alice")]).resp.Params.Roles
        = ["Basic User Role"] →
      (removeRoles cfg lib w [("userid", "alice"), ("name", "Alice")]).ok = true →
      (getRoles cfg lib (removeRoles cfg lib w [("userid", "alice"), ("name", "Alice")]).world
        [("userid", "bob"), ("name", "Bob")]).resp.Params.Roles = [] →
      (handleRoles cfg lib w demoUsers).1.filter isOutcome =
        [Event.logger 3 "Roles Removed for alice" false,
         Event.logger 3 "Skipped Role Removal: bob (0)" false] ∧
      (handleRoles cfg lib w demoUsers).1.countP isRemoved = 1 ∧
      (handleRoles cfg lib w demoUsers).1.countP isSkipped = 1 ∧
      (handleRoles cfg lib w demoUsers).1.countP isFailed = 0) := by
  have hall := loopLines_for cfg lib w Users
  refine ⟨?_, handleRoles_barAdd cfg lib w Users, ?_, ?_, ?_⟩
  · rw [handleRoles_outcomes]; exact hall
  · rw [barTotal_filter, handleRoles_barAdd, barTotal_replicate]
  · rw [countP_via_filter isRemoved isOutcome _ isRemoved_outcome,
      countP_via_filter isSkipped isOutcome _ isSkipped_outcome,
      countP_via_filter isFailed isOutcome _ isFailed_outcome, handleRoles_outcomes]
    exact forall₂_outcome_counts hall
  · intro hh ha hr hrm hb
    have hfa : rolesFound cfg lib w [("userid", "alice"), ("name", "Alice")] = true := by
      rw [rolesFound_iff]
      exact ⟨ha, by rw [hr]; simp⟩
    have hw : (handleRecord cfg lib w [("userid", "alice"), ("name", "Alice")]).2 =
        (removeRoles cfg lib w [("userid", "alice"), ("name", "Alice")]).world := by
      rw [handleRecord_eq, if_pos hfa]
    have hfb : ¬ rolesFound cfg lib
        (removeRoles cfg lib w [("userid", "alice"), ("name", "Alice")]).world
        [("userid", "bob"), ("name", "Bob")] = true := by
      rw [rolesFound_iff]
      exact fun h => h.2 hb
    have hlines : (handleRoles cfg lib w demoUsers).1.filter isOutcome =
        [Event.logger 3 "Roles Removed for alice" false,
         Event.logger 3 "Skipped Role Removal: bob (0)" false] := by
      rw [handleRoles_outcomes]
      simp only [demoUsers, loopLines, outcomeLine, hw]
      rw [if_pos hfa, if_pos hrm, if_neg hfb, hb]
      simp only [userId, hh]
      decide
    refine ⟨hlines, ?_, ?_, ?_⟩
    · rw [countP_via_filter isRemoved isOutcome _ isRemoved_outcome, hlines]
      decide
    · rw [countP_via_filter isSkipped isOutcome _ isSkipped_outcome, hlines]
      decide
    · rw [countP_via_filter isFailed isOutcome _ isFailed_outcome, hlines]
      decide

theorem split_at_index {α : Type} (l : List α) (k : Nat) (a : α) (h : l[k]? = some a) :
    l = l.take k ++ a :: l.drop (k + 1) ∧ l.take (k + 1) = l.take k ++ [a] := by
  induction l generalizing k with
  | nil => simp at h
  | cons x xs ih =>
    cases k with
    | zero =>
      simp at h
      subst h
      simp
    | succ k =>
      have h2 : xs[k]? = some a := by simpa using h
      obtain ⟨h3, h4⟩ := ih k h2
      constructor
      · simp only [List.take_succ_cons, List.drop_succ_cons, List.cons_append]
        rw [← h3]
      · simp only [List.take_succ_cons, List.cons_append]
        rw [h4]

theorem removeRoles_dryRun {σ : Type} (cfg : Config) (lib : Libs σ) (w : σ) (record : GoMap)
    (hd : cfg.configDryRun = true) : (removeRoles cfg lib w record).ok = false :=
  (doInvoke_gated cfg lib _ _ _ _ hd).2.1

theorem loopLines_dryRun {σ : Type} (cfg : Config) (lib : Libs σ) (w : σ) (Users : List GoMap)
    (hd : cfg.configDryRun = true) : ∀ e ∈ loopLines cfg lib w Users, isRemoved e = false := by
  induction Users generalizing w with
  | nil => intro e he; cases he
  | cons r rest ih =>
    intro e he
    rcases List.mem_cons.1 he with rfl | h2
    · unfold outcomeLine
      rw [removeRoles_dryRun cfg lib w r hd]
      by_cases h : rolesFound cfg lib w r = true
      · rw [if_pos h]
        exact (failed_line _ _).1
      · rw [if_neg h]
        exact (skipped_line _ _ _).1
    · exact ih _ e h2

/-- C9. In a dry run, a record whose role listing succeeds with a non-empty
list is logged, at error level, as `Failed Role Removal: <userId>`, the last
line of its iteration before the progress bar step; no `Roles Removed for` line
is logged in the whole run; and the run goes on with the records after it, to
the end. -/
theorem dryRun_logs_failed_removal {σ : Type} (cfg : Config) (lib : Libs σ) (w : σ)
    (Users : List GoMap) (k : Nat) (record : GoMap) (hd : cfg.configDryRun = true)
    (hk : Users[k]? = some record)
    (hok : (getRoles cfg lib (worldBefore cfg lib w Users k) record).ok = true)
    (hroles : (getRoles cfg lib (worldBefore cfg lib w Users k) record).resp.Params.Roles ≠ []) :
    (∃ pre, (handleRecord cfg lib (worldBefore cfg lib w Users k) record).1 =
        pre ++ [Event.logger 4 ("Failed Role Removal: " ++ record.get cfg.configHeader) false,
                Event.barAdd 1] ∧
      ∀ e ∈ pre, isOutcome e = false ∧ isCall "userRemoveRole" e = false) ∧
    (∀ e ∈ (handleRoles cfg lib w Users).1, isRemoved e = false) ∧
    (handleRoles cfg lib w Users).1 =
      [Event.logger 3 (toString Users.length ++ " users to process") false,
        Event.barStart Users.length] ++
      (handleLoop cfg lib w (Users.take k)).1 ++
      (handleRecord cfg lib (worldBefore cfg lib w Users k) record).1 ++
      (handleLoop cfg lib (worldBefore cfg lib w Users (k + 1)) (Users.drop (k + 1))).1 ++
      [Event.barFinish "Users Processed\n"] ++ debugLog cfg "Finished Processing Users" false := by
  have hf : rolesFound cfg lib (worldBefore cfg lib w Users k) record = true :=
    (rolesFound_iff _ _ _ _).2 ⟨hok, hroles⟩
  refine ⟨?_, ?_, ?_⟩
  · refine ⟨(getRoles cfg lib (worldBefore cfg lib w Users k) record).trace ++
      (removeRoles cfg lib (worldBefore cfg lib w Users k) record).trace, ?_, ?_⟩
    · rw [handleRecord_eq, if_pos hf, removeRoles_dryRun cfg lib _ record hd]
      simp [userId]
    · have h1 : ((getRoles cfg lib (worldBefore cfg lib w Users k) record).trace ++
          (removeRoles cfg lib (worldBefore cfg lib w Users k) record).trace).filter isOutcome
            = [] := by
        rw [List.filter_append]
        unfold removeRoles getRoles
        rw [doInvoke_filter isOutcome noise_not_outcome,
          doInvoke_filter isOutcome noise_not_outcome]
        simp [hd, List.filter, isOutcome, isRemoved, isSkipped, isFailed]
      have h2 : ((getRoles cfg lib (worldBefore cfg lib w Users k) record).trace ++
          (removeRoles cfg lib (worldBefore cfg lib w Users k) record).trace).filter
            (isCall "userRemoveRole") = [] := by
        rw [List.filter_append]
        unfold removeRoles getRoles
        rw [doInvoke_filter (isCall "userRemoveRole") (noise_not_call _),
          doInvoke_filter (isCall "userRemoveRole") (noise_not_call _)]
        simp [hd, List.filter, isCall]
      rw [List.filter_eq_nil_iff] at h1 h2
      intro e he
      exact ⟨by simpa using h1 e he, by simpa using h2 e he⟩
  · intro e he
    by_contra hc
    have hr : isRemoved e = true := by simpa using hc
    have hm : e ∈ (handleRoles cfg lib w Users).1.filter isOutcome :=
      List.mem_filter.2 ⟨he, isRemoved_outcome e hr⟩
    rw [handleRoles_outcomes] at hm
    rw [loopLines_dryRun cfg lib w Users hd e hm] at hr
    exact Bool.noConfusion hr
  · obtain ⟨hs, ht⟩ := split_at_index Users k record hk
    have hloop : (handleLoop cfg lib w Users).1 =
        (handleLoop cfg lib w (Users.take k)).1 ++
        (handleRecord cfg lib (worldBefore cfg lib w Users k) record).1 ++
        (handleLoop cfg lib (worldBefore cfg lib w Users (k + 1)) (Users.drop (k + 1))).1 := by
      have hw : worldBefore cfg lib w Users (k + 1) =
          (handleRecord cfg lib (worldBefore cfg lib w Users k) record).2 := by
        unfold worldBefore
        rw [ht, handleLoop_append, handleLoop_cons, handleLoop_nil]
      rw [hw]
      conv_lhs => rw [hs]
      rw [handleLoop_append, handleLoop_cons]
      simp only [worldBefore, List.append_assoc]
    rw [handleRoles_trace, hloop]
    simp only [List.append_assoc]

/-! ## Lemmas on maps and on the CSV loader -/

theorem GoMap.get_set (m : GoMap) (k v k1 : String) :
    GoMap.get (GoMap.set m k v) k1 = if k = k1 then v else GoMap.get m k1 := by
  induction m with
  | nil => simp [GoMap.set, GoMap.get]
  | cons kv m ih =>
    obtain ⟨k0, v0⟩ := kv
    by_cases h : k0 = k
    · subst h
      by_cases h1 : k0 = k1 <;> simp [GoMap.set, GoMap.get, h1]
    · by_cases h1 : k0 = k1
      · subst h1
        simp [GoMap.set, GoMap.get, h, Ne.symm h]
      · simp [GoMap.set, GoMap.get, h, h1, ih]

theorem GoMap.has_set (m : GoMap) (k v k1 : String) :
    GoMap.has (GoMap.set m k v) k1 = (decide (k = k1) || GoMap.has m k1) := by
  induction m with
  | nil => by_cases h : k = k1 <;> simp [GoMap.set, GoMap.has, h]
  | cons kv m ih =>
    obtain ⟨k0, v0⟩ := kv
    by_cases h : k0 = k
    · subst h
      by_cases h1 : k0 = k1 <;> simp [GoMap.set, GoMap.has, h1]
    · by_cases h1 : k0 = k1
      · subst h1
        simp [GoMap.set, GoMap.has, h, Ne.symm h]
      · simp [GoMap.set, GoMap.has, h, h1, ih]

/-- With as many fields as header columns, the inner loop does not panic. -/
theorem fillDict_total (hs vs : List String) (dict : GoMap) (h : hs.length = vs.length) :
    ∃ d, fillDict hs vs dict = some d := by
  induction hs generalizing vs dict with
  | nil => exact ⟨dict, by simp [fillDict]⟩
  | cons x hs ih =>
    cases vs with
    | nil => simp at h
    | cons v vs => simp only [fillDict]; exact ih vs _ (by simpa using h)

/-- Names that are no header column keep what the map held for them. -/
theorem fillDict_other (hs vs : List String) (dict d : GoMap) (name : String)
    (h : fillDict hs vs dict = some d) (hn : name ∉ hs) :
    d.get name = dict.get name ∧ d.has name = dict.has name := by
  induction hs generalizing vs dict with
  | nil => simp [fillDict] at h; subst h; exact ⟨rfl, rfl⟩
  | cons x hs ih =>
    cases vs with
    | nil => simp [fillDict] at h
    | cons v vs =>
      simp only [fillDict] at h
      have hx : x ≠ name := fun e => hn (by simp [e])
      have := ih vs _ h (fun hm => hn (List.mem_cons_of_mem _ hm))
      rw [this.1, this.2, GoMap.get_set, GoMap.has_set]
      simp [hx]

/-- A header column name is bound to the field at the last position where the
name occurs in the header. -/
theorem fillDict_last (hs vs : List String) (dict d : GoMap) (j : Nat) (name : String)
    (h : fillDict hs vs dict = some d) (hj : hs[j]? = some name)
    (hlast : ∀ j2, j < j2 → hs[j2]? ≠ some name) :
    some (d.get name) = vs[j]? ∧ d.has name = true := by
  induction hs generalizing vs dict j with
  | nil => simp at hj
  | cons x hs ih =>
    cases vs with
    | nil => simp [fillDict] at h
    | cons v vs =>
      simp only [fillDict] at h
      cases j with
      | zero =>
        simp at hj
        subst hj
        have hn : x ∉ hs := by
          intro hm
          obtain ⟨i, hi, he⟩ := List.getElem_of_mem hm
          apply hlast (i + 1) (by omega)
          simp [List.getElem?_eq_getElem hi, he]
        have := fillDict_other hs vs _ d x h hn
        rw [this.1, this.2, GoMap.get_set, GoMap.has_set]
        simp
      | succ j =>
        have hj2 : hs[j]? = some name := by simpa using hj
        have := ih vs _ j h hj2 (fun j2 hlt => by
          have := hlast (j2 + 1) (by omega)
          simpa using this)
        simpa using this

/-- The loop on rows that the reader accepts: one record per row, no error. -/
theorem readLoop_accepted (hd : List String) (rows : List GoMap) (data : List RawRecord)
    (h : ∀ r ∈ data, Accepted hd.length r) :
    ∃ recs, readLoop (some hd) rows (hd.length : Int) data =
        some { ok := true, rows := rows ++ recs, trace := [] } ∧
      List.Forall₂ (fun raw record => fillDict hd raw.fields [] = some record) data recs := by
  induction data generalizing rows with
  | nil => exact ⟨[], by simp [readLoop], List.Forall₂.nil⟩
  | cons raw rest ih =>
    obtain ⟨he, hl⟩ := h raw (List.mem_cons_self _ _)
    obtain ⟨d, hdict⟩ := fillDict_total hd raw.fields [] hl.symm
    obtain ⟨recs, h1, h2⟩ := ih (rows ++ [d]) (fun r hr => h r (List.mem_cons_of_mem _ hr))
    have hr : readRecord (hd.length : Int) raw = (ReadResult.record raw.fields, (hd.length : Int)) := by
      unfold readRecord
      rw [he]
      by_cases hp : (hd.length : Int) > 0
      · simp [hp, hl]
      · have hz : (hd.length : Int) = 0 := by omega
        simp [hz, hl]
    refine ⟨d :: recs, ?_, List.Forall₂.cons hdict h2⟩
    rw [readLoop, hr]
    simp only [hdict]
    rw [h1]
    simp

theorem fillDict_has (hs vs : List String) (dict d : GoMap) (name : String)
    (h : fillDict hs vs dict = some d) (hn : name ∈ hs) : d.has name = true := by
  induction hs generalizing vs dict with
  | nil => cases hn
  | cons x hs ih =>
    cases vs with
    | nil => simp [fillDict] at h
    | cons v vs =>
      simp only [fillDict] at h
      by_cases hm : name ∈ hs
      · exact ih vs _ h hm
      · have hx : name = x := by
          rcases List.mem_cons.1 hn with e | e
          · exact e
          · exact absurd e hm
        subst hx
        rw [(fillDict_other hs vs _ d name h hm).2, GoMap.has_set]
        simp

theorem nodup_no_later (hs : List String) (hn : hs.Nodup) (j : Nat) (name : String)
    (hj : hs[j]? = some name) : ∀ j2, j < j2 → hs[j2]? ≠ some name := by
  intro j2 hlt h2
  obtain ⟨h1, e1⟩ := List.getElem?_eq_some_iff.1 hj
  obtain ⟨h3, e3⟩ := List.getElem?_eq_some_iff.1 h2
  have := (List.Nodup.getElem_inj_iff hn).1 (e1.trans e3.symm)
  omega

/-- The first read: the header row. -/
theorem readLoop_header (hdr : RawRecord) (data : List RawRecord) (hh : hdr.err = none)
    (hne : hdr.fields ≠ []) :
    readLoop none [] 0 (hdr :: data) =
      readLoop (some hdr.fields) [] (hdr.fields.length : Int) data := by
  have hr : readRecord 0 hdr = (ReadResult.record hdr.fields, (hdr.fields.length : Int)) := by
    simp [readRecord, hh]
  rw [readLoop, hr]
  simp only [if_neg hne]

theorem readLoop_header_err (hdr : RawRecord) (data : List RawRecord) (e : String)
    (hh : hdr.err = some e) :
    readLoop none [] 0 (hdr :: data) =
      some { ok := false, rows := [],
             trace := [Event.logger 4 ("Error reading CSV data: " ++ e) true] } := by
  have hr : readRecord 0 hdr = (ReadResult.error e, (hdr.fields.length : Int)) := by
    simp [readRecord, hh]
  rw [readLoop, hr]

theorem getRecordsFromCSV_open (csv : CsvLib) (path : String) (content : List UInt8)
    (ho : csv.Open path = Except.ok content) :
    getRecordsFromCSV csv path = readLoop none [] 0 (csv.Lex true (skipBom content)) := by
  simp [getRecordsFromCSV, ho]

/-- C4. When the reader accepts the file (the header row and every data row lex
without error, the header has at least one column, as every lexed record has,
and every data row has as many fields as the header),
`getRecordsFromCSV` succeeds and returns one record per data row, in row order;
every record has a key for every header column, and the value under a column
name is the row's field at the last position where that name occurs in the
header, which is the column's own position when the header names are distinct. -/
theorem getRecordsFromCSV_accepted (csv : CsvLib) (path : String) (content : List UInt8)
    (hdr : RawRecord) (data : List RawRecord)
    (ho : csv.Open path = Except.ok content)
    (hl : csv.Lex true (skipBom content) = hdr :: data)
    (hh : hdr.err = none) (hne : hdr.fields ≠ [])
    (hd : ∀ r ∈ data, Accepted hdr.fields.length r) :
    ∃ rows, getRecordsFromCSV csv path = some { ok := true, rows := rows, trace := [] } ∧
      rows.length = (hdr :: data).length - 1 ∧
      ∀ (i : Nat) (raw : RawRecord) (row : GoMap), data[i]? = some raw → rows[i]? = some row →
        (∀ name ∈ hdr.fields, row.has name = true) ∧
        (∀ (j : Nat) (name : String), hdr.fields[j]? = some name →
          (∀ j2 : Nat, j < j2 → hdr.fields[j2]? ≠ some name) →
          some (row.get name) = raw.fields[j]?) ∧
        (hdr.fields.Nodup →
          ∀ (j : Nat) (name : String), hdr.fields[j]? = some name →
            some (row.get name) = raw.fields[j]?) := by
  obtain ⟨recs, h1, h2⟩ := readLoop_accepted hdr.fields [] data hd
  refine ⟨recs, ?_, ?_, ?_⟩
  · rw [getRecordsFromCSV_open csv path content ho, hl, readLoop_header hdr data hh hne, h1]
    simp
  · simp [h2.length_eq]
  · intro i raw row hi hr
    have hfill : fillDict hdr.fields raw.fields [] = some row := by
      obtain ⟨h3, e3⟩ := List.getElem?_eq_some_iff.1 hi
      obtain ⟨h4, e4⟩ := List.getElem?_eq_some_iff.1 hr
      have := List.Forall₂.get h2 h3 h4
      simp only [List.get_eq_getElem] at this
      rw [e3, e4] at this
      exact this
    refine ⟨fun name hn => fillDict_has _ _ _ _ name hfill hn,
      fun j name hj hlast => (fillDict_last _ _ _ _ j name hfill hj hlast).1, ?_⟩
    intro hnd j name hj
    exact (fillDict_last _ _ _ _ j name hfill hj (nodup_no_later _ hnd j name hj)).1

/-- The loop on accepted rows followed by more rows: the accepted rows become
records, and the loop goes on with the rows after them. -/
theorem readLoop_accepted_append (hd : List String) (good : List RawRecord)
    (h : ∀ r ∈ good, Accepted hd.length r) :
    ∃ recs, List.Forall₂ (fun raw record => fillDict hd raw.fields [] = some record) good recs ∧
      ∀ (rows : List GoMap) (tail : List RawRecord),
        readLoop (some hd) rows (hd.length : Int) (good ++ tail) =
          readLoop (some hd) (rows ++ recs) (hd.length : Int) tail := by
  induction good with
  | nil => exact ⟨[], List.Forall₂.nil, fun rows tail => by simp⟩
  | cons raw rest ih =>
    obtain ⟨he, hl⟩ := h raw (List.mem_cons_self _ _)
    obtain ⟨d, hdict⟩ := fillDict_total hd raw.fields [] hl.symm
    obtain ⟨recs, h2, h1⟩ := ih (fun r hr => h r (List.mem_cons_of_mem _ hr))
    have hr : readRecord (hd.length : Int) raw =
        (ReadResult.record raw.fields, (hd.length : Int)) := by
      unfold readRecord
      rw [he]
      by_cases hp : (hd.length : Int) > 0
      · simp [hp, hl]
      · have hz : (hd.length : Int) = 0 := by omega
        simp [hz, hl]
    refine ⟨d :: recs, List.Forall₂.cons hdict h2, ?_⟩
    intro rows tail
    rw [List.cons_append, readLoop, hr]
    simp only [hdict]
    rw [h1]
    simp

/-- The loop at a row that the reader rejects: the load fails with the records
read so far. -/
theorem readLoop_rejected (hd : List String) (rows : List GoMap) (bad : RawRecord)
    (rest : List RawRecord) (hp : 0 < hd.length) (hb : ¬ Accepted hd.length bad) :
    ∃ text, readLoop (some hd) rows (hd.length : Int) (bad :: rest) =
      some { ok := false, rows := rows,
             trace := [Event.logger 4 ("Error reading CSV data: " ++ text) true] } := by
  have hpos : (hd.length : Int) > 0 := by omega
  cases he : bad.err with
  | some e =>
    refine ⟨e, ?_⟩
    have hr : readRecord (hd.length : Int) bad = (ReadResult.error e, (hd.length : Int)) := by
      simp [readRecord, he, hpos]
    rw [readLoop, hr]
  | none =>
    have hlen : bad.fields.length ≠ hd.length := fun e => hb ⟨he, e⟩
    refine ⟨bad.fieldCountErr, ?_⟩
    have hr : readRecord (hd.length : Int) bad =
        (ReadResult.error bad.fieldCountErr, (hd.length : Int)) := by
      simp [readRecord, he, hpos, hlen]
    rw [readLoop, hr]

theorem first_rejected (n : Nat) (data : List RawRecord) (h : ∃ r ∈ data, ¬ Accepted n r) :
    ∃ good bad rest, data = good ++ bad :: rest ∧ (∀ r ∈ good, Accepted n r) ∧
      ¬ Accepted n bad := by
  induction data with
  | nil => obtain ⟨r, hr, _⟩ := h; cases hr
  | cons x xs ih =>
    by_cases hx : Accepted n x
    · have : ∃ r ∈ xs, ¬ Accepted n r := by
        obtain ⟨r, hr, hn⟩ := h
        rcases List.mem_cons.1 hr with e | e
        · subst e; exact absurd hx hn
        · exact ⟨r, e, hn⟩
      obtain ⟨good, bad, rest, h1, h2, h3⟩ := ih this
      refine ⟨x :: good, bad, rest, by rw [h1]; rfl, ?_, h3⟩
      intro r hr
      rcases List.mem_cons.1 hr with e | e
      · subst e; exact hx
      · exact h2 r e
    · exact ⟨[], x, xs, rfl, fun r hr => absurd hr (List.not_mem_nil r), hx⟩

/-- The run after a failed load: one more error line, no remote call. -/
theorem mainRun_failed {σ : Type} (cfg : Config) (csv : CsvLib) (lib : Libs σ) (w : σ)
    (path elapsed : String) (l : LoadResult) (h : getRecordsFromCSV csv path = some l)
    (hf : l.ok = false) :
    mainRun cfg csv lib w path elapsed =
      some (l.trace ++ [Event.logger 4 "Issues with loading the CSV file" true], w) := by
  simp [mainRun, h, hf]

/-- C5. When some data row has fewer fields than the header, `getRecordsFromCSV`
fails: it returns false and logs the read error, and `main` then stops without
any remote call. The list returned with the failure flag holds the records of
the rows before the first row that the reader rejects (it is empty when the
header row itself is in error). -/
theorem getRecordsFromCSV_short_row (csv : CsvLib) (path : String) (content : List UInt8)
    (hdr : RawRecord) (data : List RawRecord)
    (ho : csv.Open path = Except.ok content)
    (hl : csv.Lex true (skipBom content) = hdr :: data)
    (hs : ∃ r ∈ data, r.fields.length < hdr.fields.length) :
    ∃ (l : LoadResult) (good : List RawRecord) (bad : RawRecord) (rest : List RawRecord)
        (text : String),
      getRecordsFromCSV csv path = some l ∧ l.ok = false ∧
      l.trace = [Event.logger 4 ("Error reading CSV data: " ++ text) true] ∧
      data = good ++ bad :: rest ∧ (∀ r ∈ good, Accepted hdr.fields.length r) ∧
      ¬ Accepted hdr.fields.length bad ∧
      (hdr.err = none →
        readLoop none [] 0 (hdr :: good) = some { ok := true, rows := l.rows, trace := [] } ∧
        l.rows.length = good.length) ∧
      (hdr.err ≠ none → l.rows = []) ∧
      (∀ (σ : Type) (cfg : Config) (lib : Libs σ) (w : σ) (elapsed : String),
        mainRun cfg csv lib w path elapsed =
          some (l.trace ++ [Event.logger 4 "Issues with loading the CSV file" true], w)) := by
  have hpos : 0 < hdr.fields.length := by
    obtain ⟨r, _, hr⟩ := hs
    omega
  have hne : hdr.fields ≠ [] := List.ne_nil_of_length_pos hpos
  have hrej : ∃ r ∈ data, ¬ Accepted hdr.fields.length r := by
    obtain ⟨r, hr, hlt⟩ := hs
    exact ⟨r, hr, fun ha => by have := ha.2; omega⟩
  obtain ⟨good, bad, rest, hsplit, hgood, hbad⟩ := first_rejected _ data hrej
  cases hh : hdr.err with
  | some e =>
    have hres := readLoop_header_err hdr data e hh
    have hget : getRecordsFromCSV csv path = some (LoadResult.mk false []
        [Event.logger 4 ("Error reading CSV data: " ++ e) true]) := by
      rw [getRecordsFromCSV_open csv path content ho, hl, hres]
    refine ⟨_, good, bad, rest, e, hget, rfl, rfl, hsplit, hgood, hbad, ?_, fun _ => rfl, ?_⟩
    · intro hc; cases hc
    · intro σ cfg lib w elapsed
      exact mainRun_failed cfg csv lib w path elapsed _ hget rfl
  | none =>
    obtain ⟨recs, hrecs, happ⟩ := readLoop_accepted_append hdr.fields good hgood
    obtain ⟨text, hrejd⟩ := readLoop_rejected hdr.fields ([] ++ recs) bad rest hpos hbad
    have hget : getRecordsFromCSV csv path = some (LoadResult.mk false ([] ++ recs)
        [Event.logger 4 ("Error reading CSV data: " ++ text) true]) := by
      rw [getRecordsFromCSV_open csv path content ho, hl, readLoop_header hdr data hh hne, hsplit,
        happ, hrejd]
    refine ⟨_, good, bad, rest, text, hget, rfl, rfl, hsplit, hgood, hbad, ?_, ?_, ?_⟩
    · intro _
      constructor
      · rw [readLoop_header hdr good hh hne]
        have := happ [] []
        rw [List.append_nil] at this
        rw [this]
        simp [readLoop]
      · simp [hrecs.length_eq]
    · intro hc; exact absurd rfl hc
    · intro σ cfg lib w elapsed
      exact mainRun_failed cfg csv lib w path elapsed _ hget rfl

/-- A byte-order-mark at the start of the file is consumed. -/
theorem skipBom_bom (c : List UInt8) : skipBom (utf8Bom ++ c) = c := by
  simp [skipBom, readBom, utf8Bom]

/-- Without a byte-order-mark at its start, the file is read from its first
byte, whatever its length. -/
theorem skipBom_no_bom (c : List UInt8) (h : c.take 3 ≠ utf8Bom) : skipBom c = c := by
  unfold skipBom
  simp only []
  by_cases hb : (readBom c).getD 0 0 = 0xEF ∧ (readBom c).getD 1 0 = 0xBB ∧
      (readBom c).getD 2 0 = 0xBF
  · exfalso
    apply h
    match c, hb with
    | [], hb => simp [readBom] at hb
    | [a], hb => simp [readBom] at hb
    | [a, b], hb => simp [readBom] at hb
    | a :: b :: d :: rest, hb =>
      simp [readBom] at hb
      simp [utf8Bom, hb.1, hb.2.1, hb.2.2]
  · rw [if_neg hb]

/-- C6. For every CSV content `c` that does not itself begin with the bytes
`EF BB BF`, `getRecordsFromCSV` on `EF BB BF` followed by `c` returns what it
returns on `c` alone: the mark is consumed when present, and when it is absent
the reader starts at the first byte, also for contents shorter than 3 bytes. -/
theorem getRecordsFromCSV_bom (csv : CsvLib) (path : String) (c : List UInt8)
    (h : c.take 3 ≠ utf8Bom) :
    getRecordsFromCSV (csv.withFile (utf8Bom ++ c)) path =
      getRecordsFromCSV (csv.withFile c) path ∧
    skipBom (utf8Bom ++ c) = c ∧ skipBom c = c := by
  refine ⟨?_, skipBom_bom c, skipBom_no_bom c h⟩
  simp only [getRecordsFromCSV, CsvLib.withFile]
  rw [skipBom_bom, skipBom_no_bom c h]

theorem mainRun_loaded {σ : Type} (cfg : Config) (csv : CsvLib) (lib : Libs σ) (w : σ)
    (path elapsed : String) (rows : List GoMap)
    (h : getRecordsFromCSV csv path = some (LoadResult.mk true rows [])) :
    mainRun cfg csv lib w path elapsed =
      some ((handleRoles cfg lib w rows).1 ++ debugLog cfg ("Time Taken: " ++ elapsed) false
        ++ [Event.logger 3 "---- End of Utility ---- " true], (handleRoles cfg lib w rows).2) := by
  simp [mainRun, h]

/-- C7. A header row without the configured key column does not make the load
fail: when the reader accepts the file (as in C4), `getRecordsFromCSV` succeeds with one
record per data row, none of which has the key, and `main` goes on to
`handleRoles`, which dispatches `userGetRoleList` with an empty user id once per
record. -/
theorem missing_key_column_not_checked (cfg : Config) (csv : CsvLib) (path : String)
    (content : List UInt8) (hdr : RawRecord) (data : List RawRecord)
    (ho : csv.Open path = Except.ok content)
    (hl : csv.Lex true (skipBom content) = hdr :: data)
    (hh : hdr.err = none) (hne : hdr.fields ≠ [])
    (hd : ∀ r ∈ data, Accepted hdr.fields.length r)
    (hk : cfg.configHeader ∉ hdr.fields) :
    ∃ rows, getRecordsFromCSV csv path = some { ok := true, rows := rows, trace := [] } ∧
      rows.length = data.length ∧
      (∀ row ∈ rows, row.has cfg.configHeader = false ∧ row.get cfg.configHeader = "") ∧
      ∀ (σ : Type) (lib : Libs σ) (w : σ) (elapsed : String),
        ∃ r, mainRun cfg csv lib w path elapsed = some r ∧
          r.1.filter (isCall "userGetRoleList") =
            List.replicate data.length (Event.invoke "admin" "userGetRoleList" [("userId", "")]) := by
  obtain ⟨recs, h1, h2⟩ := readLoop_accepted hdr.fields [] data hd
  have hget : getRecordsFromCSV csv path = some (LoadResult.mk true recs []) := by
    rw [getRecordsFromCSV_open csv path content ho, hl, readLoop_header hdr data hh hne, h1]
    simp
  have hrows : ∀ row ∈ recs, row.has cfg.configHeader = false ∧ row.get cfg.configHeader = "" := by
    intro row hrow
    obtain ⟨i, hi, e⟩ := List.getElem_of_mem hrow
    have hi2 : i < data.length := by rw [h2.length_eq]; exact hi
    have hf := List.Forall₂.get h2 hi2 hi
    simp only [List.get_eq_getElem] at hf
    rw [e] at hf
    have := fillDict_other _ _ _ _ cfg.configHeader hf hk
    exact ⟨this.2, this.1⟩
  refine ⟨recs, hget, h2.length_eq.symm, hrows, ?_⟩
  intro σ lib w elapsed
  refine ⟨_, mainRun_loaded cfg csv lib w path elapsed recs hget, ?_⟩
  simp only [List.filter_append]
  rw [handleRoles_filter (isCall "userGetRoleList") (noise_not_call _) (fun _ _ => rfl)
    (fun _ => rfl) (fun _ => rfl), handleLoop_getRoleList,
    filter_noise _ _ (noise_not_call _) (debugLog_noise cfg _)]
  simp only [List.filter, isCall, List.append_nil]
  rw [h2.length_eq, List.eq_replicate_iff]
  constructor
  · simp
  · intro e he
    obtain ⟨row, hrow, rfl⟩ := List.mem_map.1 he
    rw [(hrows row hrow).2]

/-! ## Concrete runs -/

/-- C1, on a run: the dry run over alice and bob dispatches the two role
listings and nothing else. -/
theorem dryRun_dispatches_only_role_listings_witness :
    (demoConfig true).configDryRun = true ∧
    (handleRoles (demoConfig true) demoLib [] demoUsers).1.filter isInvoke =
      [Event.invoke "admin" "userGetRoleList" [("userId", "alice")],
       Event.invoke "admin" "userGetRoleList" [("userId", "bob")]] :=
  ⟨rfl, (dryRun_dispatches_only_role_listings (demoConfig true) demoLib [] demoUsers rfl).1⟩

/-- C3, on a run: the removal call for alice follows a successful, non-empty
role listing. -/
theorem removeRole_only_after_roles_found_witness :
    Event.invoke "admin" "userRemoveRole" [("userId", "alice"), ("role", "Basic User Role")] ∈
      (handleRoles (demoConfig false) demoLib [] demoUsers).1 ∧
    ∃ k record, demoUsers[k]? = some record ∧
      (getRoles (demoConfig false) demoLib
        (worldBefore (demoConfig false) demoLib [] demoUsers k) record).ok = true ∧
      (getRoles (demoConfig false) demoLib
        (worldBefore (demoConfig false) demoLib [] demoUsers k) record).resp.Params.Roles ≠ [] ∧
      "admin" = "admin" ∧
      [("userId", "alice"), ("role", "Basic User Role")] =
        ("userId", record.get (demoConfig false).configHeader) ::
          (getRoles (demoConfig false) demoLib
            (worldBefore (demoConfig false) demoLib [] demoUsers k) record).resp.Params.Roles.map
              (fun role => ("role", role)) :=
  ⟨by decide,
   (removeRole_only_after_roles_found (demoConfig false) demoLib [] demoUsers).1 "admin"
     [("userId", "alice"), ("role", "Basic User Role")] (by decide)⟩

/-- C8, on a call: the role listing of alice is ok and returns the decoded
response. -/
theorem doInvoke_ok_iff_witness :
    (doInvoke (demoConfig false) demoLib [] [("userId", "alice")] "admin" "userGetRoleList"
      true).ok = true ∧
    (doInvoke (demoConfig false) demoLib [] [("userId", "alice")] "admin" "userGetRoleList"
      true).resp =
      (demoLib.Unmarshal
        (demoLib.Invoke [] "admin" "userGetRoleList" [("userId", "alice")]).1.1).1 :=
  ⟨by decide,
   (doInvoke_ok_iff (demoConfig false) demoLib [] [("userId", "alice")] "admin"
     "userGetRoleList" true).2 (by decide)⟩

/-- C9, on a run: in the dry run over alice and bob, alice is logged as a failed
removal and nobody as removed. -/
theorem dryRun_logs_failed_removal_witness :
    (demoConfig true).configDryRun = true ∧
    demoUsers[0]? = some [("userid", "alice"), ("name", "Alice")] ∧
    (∃ pre, (handleRecord (demoConfig true) demoLib
        (worldBefore (demoConfig true) demoLib [] demoUsers 0)
        [("userid", "alice"), ("name", "Alice")]).1 =
        pre ++ [Event.logger 4 ("Failed Role Removal: " ++
          GoMap.get [("userid", "alice"), ("name", "Alice")] (demoConfig true).configHeader) false,
                Event.barAdd 1] ∧
      ∀ e ∈ pre, isOutcome e = false ∧ isCall "userRemoveRole" e = false) ∧
    (∀ e ∈ (handleRoles (demoConfig true) demoLib [] demoUsers).1, isRemoved e = false) :=
  ⟨rfl, rfl,
   (dryRun_logs_failed_removal (demoConfig true) demoLib [] demoUsers 0
     [("userid", "alice"), ("name", "Alice")] rfl rfl (by decide) (by decide)).1,
   (dryRun_logs_failed_removal (demoConfig true) demoLib [] demoUsers 0
     [("userid", "alice"), ("name", "Alice")] rfl rfl (by decide) (by decide)).2.1⟩

/-- C10, on a run: alice and bob against the small remote service give 1
removed, 1 skipped, 0 failed. -/
theorem handleRoles_one_outcome_per_record_witness :
    (handleRoles (demoConfig false) demoLib [] demoUsers).1.filter isOutcome =
      [Event.logger 3 "Roles Removed for alice" false,
       Event.logger 3 "Skipped Role Removal: bob (0)" false] ∧
    (handleRoles (demoConfig false) demoLib [] demoUsers).1.countP isRemoved = 1 ∧
    (handleRoles (demoConfig false) demoLib [] demoUsers).1.countP isSkipped = 1 ∧
    (handleRoles (demoConfig false) demoLib [] demoUsers).1.countP isFailed = 0 :=
  (handleRoles_one_outcome_per_record (demoConfig false) demoLib [] demoUsers).2.2.2.2
    rfl (by decide) (by decide) (by decide) (by decide)

/-- C4, as stated, fails: with the header `a,a` and the row `1,2` the load
succeeds, and the record's value under the first header column is `2`, not the
row's first field `1`. -/
theorem getRecordsFromCSV_duplicate_header :
    getRecordsFromCSV (plainCsv (asciiBytes "a,a\n1,2\n")) "users.csv" =
      some { ok := true, rows := [[("a", "2")]], trace := [] } ∧
    plainLex true (skipBom (asciiBytes "a,a\n1,2\n")) =
      [plainRow 1 ["a", "a"], plainRow 2 ["1", "2"]] ∧
    ["a", "a"][0]? = some "a" ∧ ["1", "2"][0]? = some "1" ∧
    ¬ (some (GoMap.get [("a", "2")] "a") = ["1", "2"][0]?) := by
  decide

/-- C4, on a file: the file of alice and bob loads into two records. -/
theorem getRecordsFromCSV_accepted_witness :
    plainLex true (skipBom demoCsvBytes) =
      plainRow 1 ["userid", "name"] ::
        [plainRow 2 ["alice", "Alice"], plainRow 3 ["bob", "Bob"]] ∧
    ∃ rows, getRecordsFromCSV (plainCsv demoCsvBytes) "users.csv" =
        some { ok := true, rows := rows, trace := [] } ∧ rows.length = 2 := by
  refine ⟨by decide, ?_⟩
  obtain ⟨rows, h1, h2, _⟩ := getRecordsFromCSV_accepted (plainCsv demoCsvBytes) "users.csv"
    demoCsvBytes (plainRow 1 ["userid", "name"])
    [plainRow 2 ["alice", "Alice"], plainRow 3 ["bob", "Bob"]] rfl (by decide) rfl (by decide)
    (by decide)
  exact ⟨rows, h1, h2⟩

/-- C5, as stated, fails: with the header `a,b`, the row `1,2` and the short row
`3`, the load fails and the list returned holds the record of the row `1,2`. -/
theorem getRecordsFromCSV_partial_rows :
    getRecordsFromCSV (plainCsv (asciiBytes "a,b\n1,2\n3\n4,5\n")) "users.csv" =
      some { ok := false, rows := [[("a", "1"), ("b", "2")]],
             trace := [Event.logger 4
               "Error reading CSV data: record on line 3: wrong number of fields" true] } ∧
    plainLex true (skipBom (asciiBytes "a,b\n1,2\n3\n4,5\n")) =
      [plainRow 1 ["a", "b"], plainRow 2 ["1", "2"], plainRow 3 ["3"], plainRow 4 ["4", "5"]] ∧
    ¬ ([[("a", "1"), ("b", "2")]] : List GoMap) = [] := by
  decide

/-- C5, on a file: the file with the short row `3` fails to load. -/
theorem getRecordsFromCSV_short_row_witness :
    (∃ r ∈ [plainRow 2 ["1", "2"], plainRow 3 ["3"], plainRow 4 ["4", "5"]],
      r.fields.length < (plainRow 1 ["a", "b"]).fields.length) ∧
    ∃ l, getRecordsFromCSV (plainCsv (asciiBytes "a,b\n1,2\n3\n4,5\n")) "users.csv" = some l ∧
      l.ok = false := by
  refine ⟨by decide, ?_⟩
  obtain ⟨l, _, _, _, _, h1, h2, _⟩ := getRecordsFromCSV_short_row
    (plainCsv (asciiBytes "a,b\n1,2\n3\n4,5\n")) "users.csv" (asciiBytes "a,b\n1,2\n3\n4,5\n")
    (plainRow 1 ["a", "b"]) [plainRow 2 ["1", "2"], plainRow 3 ["3"], plainRow 4 ["4", "5"]]
    rfl (by decide) (by decide)
  exact ⟨l, h1, h2⟩

/-- C6, as stated, fails: for the content `EF BB BF a\n1\n`, which itself begins
with the mark, the load of the content alone consumes its mark and binds the
key `a`, while the load of the mark followed by the content consumes one mark
and leaves the other in the header name, so that the key `a` is unbound. -/
theorem getRecordsFromCSV_double_bom :
    getRecordsFromCSV ((plainCsv []).withFile (utf8Bom ++ (utf8Bom ++ asciiBytes "a\n1\n")))
        "users.csv" ≠
      getRecordsFromCSV ((plainCsv []).withFile (utf8Bom ++ asciiBytes "a\n1\n")) "users.csv" ∧
    (getRecordsFromCSV ((plainCsv []).withFile (utf8Bom ++ asciiBytes "a\n1\n")) "users.csv").map
      (fun l => l.rows.map (fun row => (GoMap.has row "a", GoMap.get row "a"))) =
        some [(true, "1")] ∧
    (getRecordsFromCSV ((plainCsv []).withFile (utf8Bom ++ (utf8Bom ++ asciiBytes "a\n1\n")))
      "users.csv").map
      (fun l => l.rows.map (fun row => (GoMap.has row "a", GoMap.get row "a"))) =
        some [(false, "")] := by
  decide

/-- C6, on a file: a content of two bytes, `EF BB`, is read from its first
byte, and with the mark before it the mark is consumed. -/
theorem getRecordsFromCSV_bom_witness :
    ([0xEF, 0xBB] : List UInt8).take 3 ≠ utf8Bom ∧
    getRecordsFromCSV ((plainCsv []).withFile (utf8Bom ++ [0xEF, 0xBB])) "users.csv" =
      getRecordsFromCSV ((plainCsv []).withFile [0xEF, 0xBB]) "users.csv" ∧
    skipBom (utf8Bom ++ [0xEF, 0xBB]) = [0xEF, 0xBB] ∧ skipBom [0xEF, 0xBB] = [0xEF, 0xBB] :=
  ⟨by decide, getRecordsFromCSV_bom (plainCsv []) "users.csv" [0xEF, 0xBB] (by decide)⟩

/-- C7, as stated, fails: with the key column `userid` and a file whose header
is `name`, the load succeeds and the run dispatches a role listing with an
empty user id. -/
theorem missing_key_column_loads :
    getRecordsFromCSV (plainCsv (asciiBytes "name\nAlice\n")) "users.csv" =
      some { ok := true, rows := [[("name", "Alice")]], trace := [] } ∧
    (mainRun (demoConfig false) (plainCsv (asciiBytes "name\nAlice\n")) demoLib []
      "users.csv" "1.5s").map (fun r => r.1.filter isInvoke) =
      some [Event.invoke "admin" "userGetRoleList" [("userId", "")]] := by
  decide

/-- C7, on a file: the file with the header `name` loads, and the run lists the
roles of the empty user id. -/
theorem missing_key_column_not_checked_witness :
    (demoConfig false).configHeader ∉ (plainRow 1 ["name"]).fields ∧
    ∃ rows, getRecordsFromCSV (plainCsv (asciiBytes "name\nAlice\n")) "users.csv" =
        some { ok := true, rows := rows, trace := [] } ∧ rows.length = 1 ∧
      ∀ row ∈ rows, row.has (demoConfig false).configHeader = false ∧
        row.get (demoConfig false).configHeader = "" := by
  refine ⟨by decide, ?_⟩
  obtain ⟨rows, h1, h2, h3, _⟩ := missing_key_column_not_checked (demoConfig false)
    (plainCsv (asciiBytes "name\nAlice\n")) "users.csv" (asciiBytes "name\nAlice\n")
    (plainRow 1 ["name"]) [plainRow 2 ["Alice"]] rfl (by decide) rfl (by decide) (by decide)
    (by decide)
  exact ⟨rows, h1, h2, h3⟩

end RoleRemover
